import Mathlib

/-!
# Verification of the dcrwallet `wtxmgr` on-disk transaction store (db.go)

A shallow embedding of `wtxmgr/db.go`.  Byte strings are `List Nat` with
every element `< 256` (hypotheses state the bound where a proof needs it);
Go's imperative buffer writes (`copy`, `byteOrder.PutUint32`, indexed
assignment) are rendered as pure functions on such lists.  The walletdb
engine's buckets are association lists of key/value byte strings; `Get` of
a missing key is `none` (Go `nil`), and engine `Put`/`Delete` calls are
modelled as always succeeding (their `ErrDatabase` failure paths depend
only on the engine, which is a collaborator outside this package).  A Go
runtime panic from an out-of-range slice index is modelled as `Option.none`
at the outer layer of the functions where one can occur.
-/

namespace Wtxmgr

/-- The error kinds of the store (`ErrData`, `ErrDatabase`, ... from the
package's error taxonomy).  Message strings are dropped; only the kind is
modelled. -/
inductive ErrCode where
  | data
  | database
  | input
  | noExists
  | alreadyExists
  | unknownVersion
  | valueNoExists
  deriving DecidableEq, Repr

/-- A byte string: each element is a byte value. -/
abbrev Bytes := List Nat

/-! ## Encoding primitives -/

/-- Big-endian encoding of `n` into `w` bytes, most significant first
(`binary.BigEndian.PutUintN` truncates its argument to `w` bytes, which
this definition reproduces digit by digit). -/
def encBE : Nat → Nat → Bytes
  | 0, _ => []
  | w + 1, n => (n / 256 ^ w) % 256 :: encBE w n

/-- Big-endian read of a byte string as an unsigned integer
(`binary.BigEndian.UintN`). -/
def readBE : Bytes → Nat
  | [] => 0
  | b :: bs => b * 256 ^ bs.length + readBE bs

/-- Overwrite the bytes of `buf` from `off` on with `seg`, leaving
everything else in place: the shape shared by every Go buffer write
below. -/
def splice (buf : Bytes) (off : Nat) (seg : Bytes) : Bytes :=
  buf.take off ++ seg ++ buf.drop (off + seg.length)

/-- Go `copy(dst[start:stop], src)`: copy `min (stop - start) src.length`
bytes of `src` into `dst` starting at `start`. -/
def copyB (dst : Bytes) (start stop : Nat) (src : Bytes) : Bytes :=
  splice dst start (src.take (min (stop - start) src.length))

/-- Go `byteOrder.PutUint32(buf[off:off+4], n)` (`encBE 4` performs the
`uint32` truncation). -/
def putUint32At (buf : Bytes) (off n : Nat) : Bytes :=
  splice buf off (encBE 4 n)

/-- Go `byteOrder.PutUint64(buf[off:off+8], n)`. -/
def putUint64At (buf : Bytes) (off n : Nat) : Bytes :=
  splice buf off (encBE 8 n)

/-! ## The engine: buckets as association lists -/

/-- A walletdb bucket: an association list of key/value byte strings.
(For cursor iteration a bucket is additionally assumed sorted by key;
that hypothesis appears on the theorems that need it.) -/
abbrev Bucket := List (Bytes × Bytes)

/-- `Bucket.Get`: first binding of the key, `none` when absent (Go `nil`). -/
def bGet : Bucket → Bytes → Option Bytes
  | [], _ => none
  | (k0, v0) :: rest, k => if k0 = k then some v0 else bGet rest k

/-- `Bucket.Put`: replace the first binding of the key, or append. -/
def bPut : Bucket → Bytes → Bytes → Bucket
  | [], k, v => [(k, v)]
  | (k0, v0) :: rest, k, v =>
    if k0 = k then (k, v) :: rest else (k0, v0) :: bPut rest k v

/-- `Bucket.Delete`: remove the first binding of the key. -/
def bDel : Bucket → Bytes → Bucket
  | [], _ => []
  | (k0, v0) :: rest, k => if k0 = k then rest else (k0, v0) :: bDel rest k

/-- Strict lexicographic byte-string order (`bytes.Compare < 0`), the key
order of the engine's cursors.  A proper prefix sorts first. -/
def lexLt : Bytes → Bytes → Bool
  | [], [] => false
  | [], _ :: _ => true
  | _ :: _, [] => false
  | a :: as, b :: bs => if a < b then true else if b < a then false else lexLt as bs

/-! ## Root keys and bucket names (db.go `var` blocks) -/

/-- Root key `"date"`. -/
def rootCreateDate : Bytes := [100, 97, 116, 101]

/-- Root key `"vers"`. -/
def rootVersion : Bytes := [118, 101, 114, 115]

/-- Root key `"bal"`. -/
def rootMinedBalance : Bytes := [98, 97, 108]

/-- Bucket name `"b"`. -/
def bucketBlocks : Bytes := [98]

/-- Bucket name `"t"`. -/
def bucketTxRecords : Bytes := [116]

/-- Bucket name `"c"`. -/
def bucketCredits : Bytes := [99]

/-- Bucket name `"u"`. -/
def bucketUnspent : Bytes := [117]

/-- Bucket name `"d"`. -/
def bucketDebits : Bytes := [100]

/-- Bucket name `"m"`. -/
def bucketUnmined : Bytes := [109]

/-- Bucket name `"mc"`. -/
def bucketUnminedCredits : Bytes := [109, 99]

/-- Bucket name `"mi"`. -/
def bucketUnminedInputs : Bytes := [109, 105]

/-- Bucket name `"sc"`. -/
def bucketScripts : Bytes := [115, 99]

/-- Bucket name `"ms"`. -/
def bucketMultisig : Bytes := [109, 115]

/-- Bucket name `"mu"`. -/
def bucketMultisigUsp : Bytes := [109, 117]

/-! ## Mined balance (db.go `fetchMinedBalance`) -/

/-- `fetchMinedBalance`: read the root `"bal"` value; a value whose length
is not exactly 8 (including a missing key, Go `nil` of length 0) is an
`ErrData` failure. -/
def fetchMinedBalance (root : Bucket) : Except ErrCode Nat :=
  let v := (bGet root rootMinedBalance).getD []
  if v.length ≠ 8 then .error .data else .ok (readBE v)

/-! ## Canonical outpoints (db.go `canonicalOutPoint` and its reader) -/

/-- `canonicalOutPoint(txHash, index)`: 32-byte hash then 4-byte index. -/
def canonicalOutPoint (txHash : Bytes) (index : Nat) : Bytes :=
  putUint32At (copyB (List.replicate 36 0) 0 36 txHash) 32 index

/-- `readCanonicalOutPoint(k, op)`: fails with `ErrData` on fewer than 36
bytes, else returns (hash, index). -/
def readCanonicalOutPoint (k : Bytes) : Except ErrCode (Bytes × Nat) :=
  if k.length < 36 then .error .data
  else .ok (k.take 32, readBE ((k.drop 32).take 4))

/-! ## Block records (db.go block bucket section) -/

/-- `keyBlockRecord(height)`: the height as a big-endian `uint32`. -/
def keyBlockRecord (height : Nat) : Bytes := encBE 4 height

/-- `appendRawBlockRecord(v, txHash)`: append the 32-byte hash and
increment the 4-byte transaction count at `v[42:46]`.  Fails with
`ErrData` when `v` is shorter than 46 bytes. -/
def appendRawBlockRecord (v txHash : Bytes) : Except ErrCode Bytes :=
  if v.length < 46 then .error .data
  else
    let newv := v ++ txHash
    let n := readBE ((newv.drop 42).take 4)
    .ok (putUint32At newv 42 (n + 1))

/-- The copy loop of `removeRawBlockRecord`: walk `count` 32-byte segments
of `rest`, dropping every segment equal to `txHash` and keeping the rest
in order.  (The `chainhash.NewHash` error branch of the loop is
unreachable: every slice it is given is exactly 32 bytes.) -/
def removeChunks : Nat → Bytes → Bytes → Bytes
  | 0, _, _ => []
  | count + 1, rest, txHash =>
    if rest.take 32 = txHash then removeChunks count (rest.drop 32) txHash
    else rest.take 32 ++ removeChunks count (rest.drop 32) txHash

/-- `removeRawBlockRecord(v, txHash)`: rewrite the value into a buffer 32
bytes shorter, eliding every trailing hash equal to `txHash`, and
decrement the transaction count (a wrapping `uint32` subtraction).  Fails
with `ErrData` below 46 bytes.  When `txHash` occurs in no segment the
kept segments overflow the shorter buffer and Go panics on a slice bound;
that case is `none`. -/
def removeRawBlockRecord (v txHash : Bytes) : Option (Except ErrCode Bytes) :=
  if v.length < 46 then some (.error .data)
  else
    let kept := removeChunks ((v.length - 46) / 32) (v.drop 46) txHash
    if 46 + kept.length ≤ v.length - 32 then
      let newValue := v.take 46 ++ kept ++
        List.replicate (v.length - 32 - 46 - kept.length) 0
      let n := readBE ((newValue.drop 42).take 4)
      some (.ok (putUint32At newValue 42 (n + 2 ^ 32 - 1)))
    else none

/-- The trailing hash list of a block-record value body, as `count`
segments of 32 bytes (statement vocabulary for the theorems). -/
def chunks32 : Nat → Bytes → List Bytes
  | 0, _ => []
  | count + 1, rest => rest.take 32 :: chunks32 count (rest.drop 32)

/-- The loop of `fetchChainHeight`: probe consecutive heights until a
miss, remembering the last height that had a record.  The Go loop has no
bound; `fuel` pays for termination and `none` means the loop has not yet
exited within `fuel` probes. -/
def chainHeightLoop (b : Bucket) : Nat → Nat → Nat → Option Nat
  | _, _, 0 => none
  | i, lastValid, fuel + 1 =>
    match bGet b (keyBlockRecord i) with
    | none => some lastValid
    | some _ => chainHeightLoop b (i + 1) i fuel

/-- `fetchChainHeight(ns, startHeight)`: probe upward from `startHeight`;
`lastValidHeight` starts at 0 and the function fails (a plain
`fmt.Errorf`, modelled as `Except.error ()`) exactly when it is still 0
after the loop. -/
def fetchChainHeight (b : Bucket) (startHeight fuel : Nat) :
    Option (Except Unit Nat) :=
  (chainHeightLoop b startHeight 0 fuel).map fun lastValid =>
    if lastValid = 0 then .error () else .ok lastValid

/-! ## Mined transaction records (db.go tx record section) -/

/-- `latestTxRecord(ns, txHash)`: seek the cursor to the 32-byte hash
(first key not below it in the sorted bucket), walk forward while keys
keep the hash as a prefix, and return the last match; `none` models the
Go `(nil, nil)` return. -/
def latestTxRecord (bucket : Bucket) (txHash : Bytes) :
    Option (Bytes × Bytes) :=
  let rest := bucket.dropWhile fun kv => lexLt kv.1 txHash
  (rest.takeWhile fun kv => txHash.isPrefixOf kv.1).getLast?

/-- `fetchRawTxRecordPkScript(k, v, index, scrLoc, scrLen)`.  The legacy
branch (`scrLoc == scriptLocNotStored`, i.e. 0) deserializes the whole
transaction from `v[8:]` (`readRawTxRecord`, whose short-value check and
deserialization failure are both `ErrData`) and indexes its outputs;
`wire.MsgTx` deserialization is an external collaborator, passed in as
`deser`, returning the output scripts or `none` on malformed bytes.  The
stored-locator branch slices `v[scrLoc+int64Size : scrLoc+int64Size+scrLen]`;
an out-of-range slice is a Go panic, modelled `none`. -/
def fetchRawTxRecordPkScript (deser : Bytes → Option (List Bytes))
    (v : Bytes) (index scrLoc scrLen : Nat) :
    Option (Except ErrCode Bytes) :=
  if scrLoc = 0 then
    if v.length < 8 then some (.error .data)
    else
      match deser (v.drop 8) with
      | none => some (.error .data)
      | some txOut =>
        if index < txOut.length then some (.ok (txOut.getD index []))
        else some (.error .data)
  else
    if scrLoc + 8 + scrLen ≤ v.length then
      some (.ok ((v.drop (scrLoc + 8)).take scrLen))
    else none

/-! ## Credit records (db.go credit section) -/

/-- `condenseOpCode(opCode) = (opCode - 0xb9) << 2` over `uint8`
(wrapping subtraction, then a shift that discards the top two bits). -/
def condenseOpCode (opCode : Nat) : Nat :=
  ((opCode + 256 - 185) % 256 * 4) % 256

/-- `valueUnspentCredit`: a fresh 94-byte credit value — amount, flag
byte (change bit 1, coinbase bit 5, condensed opcode bits 2..4, spent bit
clear), zero debit back-reference, and the script locator with the
`accountExists` mask set. -/
def valueUnspentCredit (amount : Nat) (change isCoinbase : Bool)
    (opCode scrType scrLoc scrLen account : Nat) : Bytes :=
  let v0 := putUint64At (List.replicate 94 0) 0 amount
  let f0 := condenseOpCode opCode
  let f1 := if change then f0 ||| 2 else f0
  let f2 := if isCoinbase then f1 ||| 32 else f1
  let v1 := v0.set 8 f2
  let v2 := v1.set 81 (scrType ||| 128)
  putUint32At (putUint32At (putUint32At v2 82 scrLoc) 86 scrLen) 90 account

/-- `fetchRawCreditAmount`: `ErrData` below 9 bytes, else the first 8
bytes as a big-endian amount. -/
def fetchRawCreditAmount (v : Bytes) : Except ErrCode Nat :=
  if v.length < 9 then .error .data else .ok (readBE (v.take 8))

/-- `fetchRawCreditAmountSpent`: amount plus flag bit 0. -/
def fetchRawCreditAmountSpent (v : Bytes) : Except ErrCode (Nat × Bool) :=
  if v.length < 9 then .error .data
  else .ok (readBE (v.take 8), (v.getD 8 0) &&& 1 != 0)

/-- The spender incidence passed to `spendCredit` (an `indexedIncidence`:
transaction hash, block, and input index). -/
structure IndexedIncidence where
  txHash : Bytes
  blockHeight : Nat
  blockHash : Bytes
  index : Nat

/-- `spendCredit(ns, k, spender)`: read the credit value (`nil` when
absent), rebuild it in a fresh 94-byte buffer, set spent flag bit 0,
write the 72-byte spender key into bytes 9..81, store it back, and
return the amount from the buffer's first 8 bytes. -/
def spendCredit (b : Bucket) (k : Bytes) (spender : IndexedIncidence) :
    Nat × Bucket :=
  let v := (bGet b k).getD []
  let nv0 := copyB (List.replicate 94 0) 0 94 v
  let nv1 := nv0.set 8 ((nv0.getD 8 0) ||| 1)
  let nv2 := copyB nv1 9 41 spender.txHash
  let nv3 := putUint32At nv2 41 spender.blockHeight
  let nv4 := copyB nv3 45 77 spender.blockHash
  let nv5 := putUint32At nv4 77 spender.index
  (readBE (nv5.take 8), bPut b k nv5)

/-- `unspendRawCredit(ns, k)`: a missing credit is not an error (amount
0, no write); otherwise rebuild the value in a fresh 94-byte buffer with
flag bit 0 cleared (`&^= 1 << 0`, modelled `&&& 254` over a byte) and
return the stored amount.  (`byteOrder.Uint64` on a value shorter than 8
bytes would be a Go panic: `none`.) -/
def unspendRawCredit (b : Bucket) (k : Bytes) : Option (Nat × Bucket) :=
  match bGet b k with
  | none => some (0, b)
  | some v =>
    if v.length < 8 then none
    else
      let newv0 := copyB (List.replicate 94 0) 0 94 v
      let newv := newv0.set 8 ((newv0.getD 8 0) &&& 254)
      some (readBE (v.take 8), bPut b k newv)

/-! ## Unspent / unmined readers used for the error-taxonomy claim -/

/-- `readUnspentBlock`: `ErrData` below 36 bytes, else (height, hash). -/
def readUnspentBlock (v : Bytes) : Except ErrCode (Nat × Bytes) :=
  if v.length < 36 then .error .data
  else .ok (readBE (v.take 4), (v.drop 4).take 32)

/-- `fetchRawUnminedCreditAmount`: `ErrData` below 9 bytes. -/
def fetchRawUnminedCreditAmount (v : Bytes) : Except ErrCode Nat :=
  if v.length < 9 then .error .data else .ok (readBE (v.take 8))

/-- `readRawUnminedHash`: `ErrData` below 32 bytes. -/
def readRawUnminedHash (k : Bytes) : Except ErrCode Bytes :=
  if k.length < 32 then .error .data else .ok (k.take 32)

/-! ## Multisig records (db.go multisig section) -/

/-- The decoded `MultisigOut` structure. -/
structure MultisigOut where
  opHash : Bytes
  opIndex : Nat
  scriptHash : Bytes
  m : Nat
  n : Nat
  spent : Bool
  tree : Nat
  blockHash : Bytes
  blockHeight : Nat
  amount : Nat
  spentBy : Bytes
  spentByIndex : Nat
  txHash : Bytes
  deriving DecidableEq, Repr

/-- `valueMultisigOut`: the 135-byte multisig record.  `tree` is the
`dcrutil` transaction tree (0 regular, 1 stake). -/
def valueMultisigOut (sh : Bytes) (m n : Nat) (spent : Bool) (tree : Nat)
    (blockHash : Bytes) (blockHeight amount : Nat) (spentBy : Bytes)
    (sbi : Nat) (txHash : Bytes) : Bytes :=
  let v0 := copyB (List.replicate 135 0) 0 20 sh
  let v1 := (v0.set 20 m).set 21 n
  let flags := (if spent then 1 else 0) ||| (if tree = 1 then 2 else 0)
  let v2 := v1.set 22 flags
  let v3 := copyB v2 23 55 blockHash
  let v4 := putUint32At v3 55 blockHeight
  let v5 := putUint64At v4 59 amount
  let v6 := copyB v5 67 99 spentBy
  let v7 := putUint32At v6 99 sbi
  copyB v7 103 135 txHash

/-- `fetchMultisigOut(k, v)`: rejects a key that is not exactly 36 bytes
and a value that is not exactly 135 bytes — both with `ErrDatabase` (the
literal error kind used in the source) — then decodes every field. -/
def fetchMultisigOut (k v : Bytes) : Except ErrCode MultisigOut :=
  if k.length ≠ 36 then .error .database
  else if v.length ≠ 135 then .error .database
  else
    match readCanonicalOutPoint k with
    | .error e => .error e
    | .ok op =>
      .ok
        { opHash := op.1
          opIndex := op.2
          scriptHash := v.take 20
          m := v.getD 20 0
          n := v.getD 21 0
          spent := (v.getD 22 0) &&& 1 != 0
          tree := if (v.getD 22 0) &&& 2 != 0 then 1 else 0
          blockHash := (v.drop 23).take 32
          blockHeight := readBE ((v.drop 55).take 4)
          amount := readBE ((v.drop 59).take 8)
          spentBy := (v.drop 67).take 32
          spentByIndex := readBE ((v.drop 99).take 4)
          txHash := (v.drop 103).take 32 }

/-- `fetchMultisigOutSpent`: flag bit 0. -/
def fetchMultisigOutSpent (v : Bytes) : Bool :=
  (v.getD 22 0) &&& 1 != 0

/-- `fetchMultisigOutTree`: flag bit 1 selects the stake tree (1) over the
regular tree (0). -/
def fetchMultisigOutTree (v : Bytes) : Nat :=
  if (v.getD 22 0) &&& 2 != 0 then 1 else 0

/-- `fetchMultisigOutSpentVerbose`: (spent, spender hash, spender index). -/
def fetchMultisigOutSpentVerbose (v : Bytes) : Bool × Bytes × Nat :=
  ((v.getD 22 0) &&& 1 != 0, (v.drop 67).take 32, readBE ((v.drop 99).take 4))

/-- `setMultisigOutSpent(v, spendHash, spendIndex)`: overwrite the flag
byte with `1` (`spentByte := 0; spentByte |= 1 << 0; v[22] = spentByte`),
copy the spender hash into `v[67:99]` and the spender index into
`v[99:103]`.  (Multisig values are always 135 bytes; on a shorter buffer
Go would panic.) -/
def setMultisigOutSpent (v spendHash : Bytes) (spendIndex : Nat) : Bytes :=
  putUint32At (copyB (v.set 22 1) 67 99 spendHash) 99 spendIndex

/-- `setMultisigOutUnSpent(v)`: overwrite the flag byte with `0`, zero
`v[67:98]` (31 bytes — the 32nd spent-by byte is left as it was) and set
the spender index to `0xFFFFFFFF`. -/
def setMultisigOutUnSpent (v : Bytes) : Bytes :=
  putUint32At (copyB (v.set 22 0) 67 98 (List.replicate 32 0)) 99 4294967295

/-! ## Store lifecycle (db.go `createStore`) -/

/-- The namespace as seen by `createStore`: root key/value pairs and the
list of sub-bucket names created so far. -/
structure NamespaceState where
  root : Bucket
  buckets : List Bytes
  deriving DecidableEq, Repr

/-- `createStore(namespace)`: fail with `ErrAlreadyExists` unless the
namespace is empty; otherwise (in one transaction) write
`vers = LatestVersion (= 2)` as 4 bytes, `date = now` as 8 bytes, a zero
8-byte balance, and create the store's sub-buckets in source order. -/
def createStore (ns : NamespaceState) (now : Nat) :
    Except ErrCode NamespaceState :=
  if ns.root ≠ [] ∨ ns.buckets ≠ [] then .error .alreadyExists
  else
    .ok
      { root := bPut (bPut (bPut [] rootVersion (encBE 4 2))
          rootCreateDate (encBE 8 now)) rootMinedBalance (List.replicate 8 0)
        buckets := [bucketBlocks, bucketTxRecords, bucketCredits,
          bucketDebits, bucketUnspent, bucketUnmined, bucketUnminedCredits,
          bucketUnminedInputs, bucketScripts, bucketMultisig,
          bucketMultisigUsp] }

/-! ## Credit lifecycle discipline (spec §3/§4.4), for the balance invariant

The callers that keep `bal` synchronized with the credits bucket live in
the package's transaction-level code (tx.go), which is not among the
sources here; only the spec describes that discipline, so it is modelled
from the spec below. -/

/-- The amount a credit value contributes to the mined balance: its
8-byte amount when flag bit 0 (Spent) is clear, else nothing. -/
def creditUnspentAmt (v : Bytes) : Nat :=
  if (v.getD 8 0) &&& 1 = 0 then readBE (v.take 8) else 0

/-- Sum of unspent-credit amounts over a credits bucket. -/
def sumUnspent : Bucket → Nat
  | [] => 0
  | (_, v) :: rest => creditUnspentAmt v + sumUnspent rest

/-- State threaded through a write transaction: the credits bucket and the
root `bal` scalar. -/
structure StoreState where
  credits : Bucket
  bal : Nat
  deriving DecidableEq, Repr

/-- Modelled from the spec: the credit mutations of §3 ("Ownership and
lifecycle") and §4.4, whose call sites (tx.go) are not among the sources.
Each constructor is one credit-lifecycle mutation: insert a new unspent
credit, mark a credit spent by a mined debit, unspend it, or delete it. -/
inductive TxOp where
  | putNew (k : Bytes) (amount : Nat) (change isCoinbase : Bool)
      (opCode scrType scrLoc scrLen account : Nat)
  | spend (k : Bytes) (spender : IndexedIncidence)
  | unspend (k : Bytes)
  | del (k : Bytes)

/-- Modelled from the spec: apply one credit mutation, updating `bal`
synchronously as §3 prescribes (insert new unspent → add; mark spent by
mined debit → subtract; unspend → add; delete → subtract if unspent).
The credit reads and writes go through the db.go functions
(`valueUnspentCredit`, `spendCredit`, `unspendRawCredit`); the guards are
the conditions under which tx.go performs each mutation (fresh key for an
insert, an existing unspent 94-byte credit for a spend, an existing
spent one for an unspend), and `none` means the mutation does not
apply. -/
def applyOp (s : StoreState) : TxOp → Option StoreState
  | .putNew k amount change isCoinbase opCode scrType scrLoc scrLen account =>
    if bGet s.credits k = none ∧ amount < 2 ^ 64 then
      some { credits := bPut s.credits k
               (valueUnspentCredit amount change isCoinbase opCode scrType
                 scrLoc scrLen account)
             bal := s.bal + amount }
    else none
  | .spend k spender =>
    match bGet s.credits k with
    | none => none
    | some v =>
      if v.length = 94 ∧ (v.getD 8 0) &&& 1 = 0 then
        some { credits := (spendCredit s.credits k spender).2
               bal := s.bal - (spendCredit s.credits k spender).1 }
      else none
  | .unspend k =>
    match bGet s.credits k with
    | none => none
    | some v =>
      if v.length = 94 ∧ (v.getD 8 0) &&& 1 = 1 then
        match unspendRawCredit s.credits k with
        | none => none
        | some r => some { credits := r.2, bal := s.bal + r.1 }
      else none
  | .del k =>
    match bGet s.credits k with
    | none => none
    | some v =>
      some { credits := bDel s.credits k, bal := s.bal - creditUnspentAmt v }

/-- Run a transaction body: a sequence of credit mutations. -/
def runOps (s : StoreState) : List TxOp → Option StoreState
  | [] => some s
  | op :: rest =>
    match applyOp s op with
    | none => none
    | some s1 => runOps s1 rest

/-! ## Lemmas about the encoding primitives -/

@[simp] theorem encBE_length (w n : Nat) : (encBE w n).length = w := by
  induction w generalizing n with
  | zero => rfl
  | succ w ih => simp [encBE, ih]

theorem encBE_mem_lt (w n : Nat) : ∀ b ∈ encBE w n, b < 256 := by
  induction w generalizing n with
  | zero => simp [encBE]
  | succ w ih =>
    intro b hb
    simp only [encBE, List.mem_cons] at hb
    rcases hb with h | h
    · exact h ▸ Nat.mod_lt _ (by norm_num)
    · exact ih n b h

theorem readBE_encBE (w n : Nat) : readBE (encBE w n) = n % 256 ^ w := by
  induction w generalizing n with
  | zero => simp [encBE, readBE, Nat.mod_one]
  | succ w ih =>
    simp only [encBE, readBE, encBE_length, ih]
    rw [Nat.pow_succ, Nat.mod_mul]
    ring

theorem readBE_lt (l : List Nat) (h : ∀ b ∈ l, b < 256) :
    readBE l < 256 ^ l.length := by
  induction l with
  | nil => simp [readBE]
  | cons b bs ih =>
    have hb : b < 256 := h b (List.mem_cons_self _ _)
    have hbs := ih (fun x hx => h x (List.mem_cons_of_mem _ hx))
    simp only [readBE, List.length_cons]
    calc b * 256 ^ bs.length + readBE bs
        < b * 256 ^ bs.length + 256 ^ bs.length := by omega
      _ = (b + 1) * 256 ^ bs.length := by ring
      _ ≤ 256 * 256 ^ bs.length := by
          exact Nat.mul_le_mul_right _ (by omega)
      _ = 256 ^ (bs.length + 1) := by rw [Nat.pow_succ]; ring

/-- `encBE w` only depends on its argument modulo `256 ^ w`. -/
theorem encBE_mod (w n : Nat) : encBE w (n % 256 ^ w) = encBE w n := by
  induction w generalizing n with
  | zero => rfl
  | succ w ih =>
    simp only [encBE, List.cons.injEq]
    constructor
    · rw [Nat.pow_succ, Nat.mod_mul_right_div_self,
        Nat.mod_mod_of_dvd _ (dvd_refl 256)]
    · have h1 : n % 256 ^ (w + 1) % 256 ^ w = n % 256 ^ w := by
        rw [Nat.mod_mod_of_dvd _ (pow_dvd_pow 256 (Nat.le_succ w))]
      calc encBE w (n % 256 ^ (w + 1))
          = encBE w (n % 256 ^ (w + 1) % 256 ^ w) := (ih _).symm
        _ = encBE w (n % 256 ^ w) := by rw [h1]
        _ = encBE w n := ih n

theorem encBE_readBE (l : List Nat) (h : ∀ b ∈ l, b < 256) :
    encBE l.length (readBE l) = l := by
  induction l with
  | nil => rfl
  | cons b bs ih =>
    have hb : b < 256 := h b (List.mem_cons_self _ _)
    have hbs : ∀ x ∈ bs, x < 256 := fun x hx => h x (List.mem_cons_of_mem _ hx)
    have hlt : readBE bs < 256 ^ bs.length := readBE_lt bs hbs
    simp only [List.length_cons, encBE, readBE, List.cons.injEq]
    constructor
    · have hdiv : (b * 256 ^ bs.length + readBE bs) / 256 ^ bs.length = b := by
        rw [Nat.add_comm,
          Nat.add_mul_div_right _ _ (Nat.pos_pow_of_pos _ (by norm_num)),
          Nat.div_eq_of_lt hlt]
        omega
      rw [hdiv, Nat.mod_eq_of_lt hb]
    · have hmod : (b * 256 ^ bs.length + readBE bs) % 256 ^ bs.length
        = readBE bs := by
        rw [Nat.mul_comm, Nat.mul_add_mod, Nat.mod_eq_of_lt hlt]
      rw [← encBE_mod, hmod]
      exact ih hbs


/-! ## Small indexing helpers -/

theorem getD_drop' (l : List Nat) (n i d : Nat) :
    (l.drop n).getD i d = l.getD (n + i) d := by
  simp [List.getD, List.getElem?_drop]

theorem getD_take' (l : List Nat) (n i d : Nat) (h : i < n) :
    (l.take n).getD i d = l.getD i d := by
  simp [List.getD, List.getElem?_take, h]

theorem getD_set_ne' (l : List Nat) (i j x d : Nat) (h : i ≠ j) :
    (l.set i x).getD j d = l.getD j d := by
  simp [List.getD, List.getElem?_set_ne h]

theorem getD_set_self' (l : List Nat) (i x d : Nat) (h : i < l.length) :
    (l.set i x).getD i d = x := by
  simp [List.getD, List.getElem?_set_self, h]

theorem getD_replicate' (n i d : Nat) (h : i < n) :
    (List.replicate n 0).getD i d = 0 := by
  simp [List.getD, List.getElem?_replicate, h]

/-! ## Lemmas about buffer writes -/

theorem splice_length (buf : Bytes) (off : Nat) (seg : Bytes)
    (h : off + seg.length ≤ buf.length) :
    (splice buf off seg).length = buf.length := by
  simp only [splice, List.length_append, List.length_take, List.length_drop]
  omega

theorem splice_getD_lt (buf : Bytes) (off : Nat) (seg : Bytes) (j d : Nat)
    (hoff : off + seg.length ≤ buf.length) (hj : j < off) :
    (splice buf off seg).getD j d = buf.getD j d := by
  have htk : (buf.take off).length = off := by simp; omega
  simp only [splice]
  rw [List.getD_append _ _ _ _ (by simp only [List.length_append, htk]; omega)]
  rw [List.getD_append _ _ _ _ (by rw [htk]; omega)]
  exact getD_take' _ _ _ _ hj

theorem splice_getD_mid (buf : Bytes) (off : Nat) (seg : Bytes) (j d : Nat)
    (hoff : off + seg.length ≤ buf.length) (h1 : off ≤ j)
    (h2 : j < off + seg.length) :
    (splice buf off seg).getD j d = seg.getD (j - off) d := by
  have htk : (buf.take off).length = off := by simp; omega
  simp only [splice]
  rw [List.getD_append _ _ _ _ (by simp only [List.length_append, htk]; omega)]
  rw [List.getD_append_right _ _ _ _ (by rw [htk]; omega), htk]

theorem splice_getD_ge (buf : Bytes) (off : Nat) (seg : Bytes) (j d : Nat)
    (hoff : off + seg.length ≤ buf.length) (hj : off + seg.length ≤ j) :
    (splice buf off seg).getD j d = buf.getD j d := by
  have htk : (buf.take off).length = off := by simp; omega
  simp only [splice]
  rw [List.getD_append_right _ _ _ _
    (by simp only [List.length_append, htk]; omega)]
  simp only [List.length_append, htk]
  rw [getD_drop']
  congr 1
  omega

theorem splice_take (buf : Bytes) (off : Nat) (seg : Bytes) (k : Nat)
    (hoff : off ≤ buf.length) (hk : k ≤ off) :
    (splice buf off seg).take k = buf.take k := by
  have htk : (buf.take off).length = off := by simp; omega
  simp only [splice]
  rw [List.take_append_eq_append_take, List.take_append_eq_append_take, htk]
  have h1 : k - off = 0 := by omega
  have h2 : k - (buf.take off ++ seg).length = 0 := by
    simp only [List.length_append, htk]; omega
  rw [h1, h2, List.take_zero, List.take_zero, List.append_nil, List.append_nil,
    List.take_take, Nat.min_eq_left hk]

theorem splice_drop (buf : Bytes) (off : Nat) (seg : Bytes) (k : Nat)
    (hoff : off + seg.length ≤ buf.length) (hk : off + seg.length ≤ k) :
    (splice buf off seg).drop k = buf.drop k := by
  have htk : (buf.take off).length = off := by simp; omega
  simp only [splice]
  rw [List.drop_append_eq_append_drop, List.drop_append_eq_append_drop, htk]
  have h1 : (buf.take off).drop k = [] := by
    rw [List.drop_eq_nil_iff]; omega
  have h2 : seg.drop (k - off) = [] := by
    rw [List.drop_eq_nil_iff]; omega
  have h3 : (buf.take off ++ seg).length = off + seg.length := by
    simp [htk]
  rw [h1, h2, List.nil_append, List.nil_append, h3, List.drop_drop]
  congr 1
  omega

theorem splice_extract (buf : Bytes) (off : Nat) (seg : Bytes)
    (hoff : off ≤ buf.length) :
    ((splice buf off seg).drop off).take seg.length = seg := by
  have htk : (buf.take off).length = off := by simp; omega
  simp only [splice]
  rw [List.drop_append_eq_append_drop, List.drop_append_eq_append_drop, htk]
  have h1 : (buf.take off).drop off = [] := by
    rw [List.drop_eq_nil_iff, htk]
  have h2 : off - off = 0 := by omega
  rw [h1, h2, List.drop_zero, List.nil_append]
  have h3 : off - (buf.take off ++ seg).length = 0 := by
    simp [htk]
  rw [h3, List.drop_zero, List.take_append_eq_append_take, List.take_length,
    Nat.sub_self, List.take_zero, List.append_nil]

/-! ## Flag-byte bit lemmas -/

theorem or_one_and_254 (x : Nat) : (x ||| 1) &&& 254 = x &&& 254 := by
  apply Nat.eq_of_testBit_eq
  intro i
  simp only [Nat.testBit_and, Nat.testBit_or]
  cases i with
  | zero => simp [show Nat.testBit 254 0 = false from rfl]
  | succ i =>
    have h1 : Nat.testBit 1 (i + 1) = false :=
      Nat.testBit_lt_two_pow (Nat.one_lt_two_pow_iff.mpr (by omega))
    simp [h1]

theorem or_one_and_one (x : Nat) : (x ||| 1) &&& 1 = 1 := by
  apply Nat.eq_of_testBit_eq
  intro i
  simp only [Nat.testBit_and, Nat.testBit_or]
  cases i with
  | zero => simp [show Nat.testBit 1 0 = true from rfl]
  | succ i =>
    have h1 : Nat.testBit 1 (i + 1) = false :=
      Nat.testBit_lt_two_pow (Nat.one_lt_two_pow_iff.mpr (by omega))
    simp [h1]

theorem and_254_and_one (x : Nat) : (x &&& 254) &&& 1 = 0 := by
  apply Nat.eq_of_testBit_eq
  intro i
  simp only [Nat.testBit_and]
  cases i with
  | zero => simp [show Nat.testBit 254 0 = false from rfl]
  | succ i =>
    have h1 : Nat.testBit 1 (i + 1) = false :=
      Nat.testBit_lt_two_pow (Nat.one_lt_two_pow_iff.mpr (by omega))
    simp [h1]

theorem and_one_or (a b : Nat) : (a ||| b) &&& 1 = (a &&& 1) ||| (b &&& 1) := by
  apply Nat.eq_of_testBit_eq
  intro i
  simp only [Nat.testBit_and, Nat.testBit_or]
  cases Bool.eq_false_or_eq_true (Nat.testBit 1 i) with
  | inl h => simp [h]
  | inr h => simp [h]

theorem condenseOpCode_and_one (opCode : Nat) : condenseOpCode opCode &&& 1 = 0 := by
  rw [Nat.and_one_is_mod, condenseOpCode,
    Nat.mod_mod_of_dvd _ (by norm_num : (2:Nat) ∣ 256)]
  omega

/-! ## Bucket lemmas -/

theorem bGet_bPut_self (b : Bucket) (k v : Bytes) :
    bGet (bPut b k v) k = some v := by
  induction b with
  | nil => simp [bGet, bPut]
  | cons kv rest ih =>
    by_cases h : kv.1 = k
    · simp [bGet, bPut, h]
    · simp [bGet, bPut, h, ih]

theorem bGet_bPut_ne (b : Bucket) (k k' v : Bytes) (h : k ≠ k') :
    bGet (bPut b k v) k' = bGet b k' := by
  induction b with
  | nil => simp [bGet, bPut, h]
  | cons kv rest ih =>
    by_cases h0 : kv.1 = k
    · simp only [bPut, h0, if_pos rfl, bGet]
      rw [if_neg h, if_neg (h0 ▸ h)]
    · simp only [bPut, h0, if_neg h0, bGet]
      by_cases h1 : kv.1 = k'
      · rw [if_pos h1, if_pos h1]
      · rw [if_neg h1, if_neg h1, ih]

theorem sumUnspent_bPut (b : Bucket) (k v v' : Bytes)
    (h : bGet b k = some v) :
    sumUnspent (bPut b k v') + creditUnspentAmt v
      = sumUnspent b + creditUnspentAmt v' := by
  induction b with
  | nil => simp [bGet] at h
  | cons kv rest ih =>
    by_cases h0 : kv.1 = k
    · simp only [bGet, if_pos h0, Option.some.injEq] at h
      simp only [bPut, if_pos h0, sumUnspent, h]
      omega
    · simp only [bGet, if_neg h0] at h
      simp only [bPut, if_neg h0, sumUnspent]
      have := ih h
      omega

theorem sumUnspent_bPut_new (b : Bucket) (k v' : Bytes)
    (h : bGet b k = none) :
    sumUnspent (bPut b k v') = sumUnspent b + creditUnspentAmt v' := by
  induction b with
  | nil => simp [bPut, sumUnspent]
  | cons kv rest ih =>
    by_cases h0 : kv.1 = k
    · simp [bGet, if_pos h0] at h
    · simp only [bGet, if_neg h0] at h
      simp only [bPut, if_neg h0, sumUnspent]
      have := ih h
      omega

theorem sumUnspent_bDel (b : Bucket) (k v : Bytes)
    (h : bGet b k = some v) :
    sumUnspent (bDel b k) + creditUnspentAmt v = sumUnspent b := by
  induction b with
  | nil => simp [bGet] at h
  | cons kv rest ih =>
    by_cases h0 : kv.1 = k
    · simp only [bGet, if_pos h0, Option.some.injEq] at h
      simp only [bDel, if_pos h0, sumUnspent, h]
      omega
    · simp only [bGet, if_neg h0] at h
      simp only [bDel, if_neg h0, sumUnspent]
      have := ih h
      omega


theorem splice_window (buf : Bytes) (off : Nat) (seg : Bytes) (j n : Nat)
    (hoff : off ≤ buf.length) (hjn : j + n ≤ off) :
    ((splice buf off seg).drop j).take n = (buf.drop j).take n := by
  have htk : (buf.take off).length = off := by simp; omega
  simp only [splice, List.append_assoc]
  rw [List.drop_append_eq_append_drop, List.take_append_eq_append_take]
  have h1 : ((buf.take off).drop j).length = off - j := by simp [htk]
  have h2 : n - ((buf.take off).drop j).length = 0 := by rw [h1]; omega
  rw [h2, List.take_zero, List.append_nil]
  rw [List.take_drop, List.take_take, Nat.min_eq_left (by omega),
    List.drop_take]
  congr 1
  omega

theorem copyB_exact (dst : Bytes) (start stop : Nat) (src : Bytes)
    (h : src.length = stop - start) :
    copyB dst start stop src = splice dst start src := by
  unfold copyB
  rw [h, Nat.min_self, ← h, List.take_length]

theorem splice_full (buf seg : Bytes) (h : buf.length = seg.length) :
    splice buf 0 seg = seg := by
  unfold splice
  rw [List.take_zero, Nat.zero_add, ← h, List.drop_length, List.append_nil,
    List.nil_append]

theorem take_set_ge (l : Bytes) (i x k : Nat) (h : k ≤ i) :
    (l.set i x).take k = l.take k := by
  rw [List.set_eq_take_append_cons_drop]
  by_cases hi : i < l.length
  · rw [if_pos hi]
    rw [List.take_append_eq_append_take, List.take_take, Nat.min_eq_left h,
      List.length_take]
    have h0 : k - min i l.length = 0 := by omega
    rw [h0, List.take_zero, List.append_nil]
  · rw [if_neg hi]

/-! ## The write performed by `spendCredit` / `unspendRawCredit` on an
existing 94-byte credit -/

theorem spendCredit_result (b : Bucket) (k v : Bytes) (sp : IndexedIncidence)
    (hget : bGet b k = some v) (hlen : v.length = 94) :
    ∃ nv, spendCredit b k sp = (readBE (v.take 8), bPut b k nv) ∧
      nv.length = 94 ∧ nv.take 8 = v.take 8 ∧
      nv.getD 8 0 = (v.getD 8 0) ||| 1 := by
  have hv : (bGet b k).getD [] = v := by rw [hget]; rfl
  have h0 : copyB (List.replicate 94 0) 0 94 v = v := by
    rw [copyB_exact _ _ _ _ (by rw [hlen]),
      splice_full _ _ (by simp [hlen])]
  have hlen1 : (v.set 8 ((v.getD 8 0) ||| 1)).length = 94 := by
    rw [List.length_set, hlen]
  have hs1 : (sp.txHash.take (min (41 - 9) sp.txHash.length)).length ≤ 32 := by
    simp only [List.length_take]
    omega
  have hlen2 : (splice (v.set 8 ((v.getD 8 0) ||| 1)) 9
      (sp.txHash.take (min (41 - 9) sp.txHash.length))).length = 94 := by
    rw [splice_length _ _ _ (by omega)]
    exact hlen1
  have hlen3 : (splice (splice (v.set 8 ((v.getD 8 0) ||| 1)) 9
      (sp.txHash.take (min (41 - 9) sp.txHash.length))) 41
      (encBE 4 sp.blockHeight)).length = 94 := by
    rw [splice_length _ _ _ (by simp only [encBE_length, hlen2]; omega)]
    exact hlen2
  have hs2 : (sp.blockHash.take (min (77 - 45) sp.blockHash.length)).length ≤ 32 := by
    simp only [List.length_take]
    omega
  have hlen4 : (splice (splice (splice (v.set 8 ((v.getD 8 0) ||| 1)) 9
      (sp.txHash.take (min (41 - 9) sp.txHash.length))) 41
      (encBE 4 sp.blockHeight)) 45
      (sp.blockHash.take (min (77 - 45) sp.blockHash.length))).length = 94 := by
    rw [splice_length _ _ _ (by omega)]
    exact hlen3
  have hlen5 : (splice (splice (splice (splice (v.set 8 ((v.getD 8 0) ||| 1)) 9
      (sp.txHash.take (min (41 - 9) sp.txHash.length))) 41
      (encBE 4 sp.blockHeight)) 45
      (sp.blockHash.take (min (77 - 45) sp.blockHash.length))) 77
      (encBE 4 sp.index)).length = 94 := by
    rw [splice_length _ _ _ (by simp only [encBE_length, hlen4]; omega)]
    exact hlen4
  simp only [spendCredit, hv]
  rw [h0]
  simp only [copyB, putUint32At]
  refine ⟨_, ?_, hlen5, ?_, ?_⟩
  · have htake : (splice (splice (splice (splice (v.set 8 ((v.getD 8 0) ||| 1)) 9
        (sp.txHash.take (min (41 - 9) sp.txHash.length))) 41
        (encBE 4 sp.blockHeight)) 45
        (sp.blockHash.take (min (77 - 45) sp.blockHash.length))) 77
        (encBE 4 sp.index)).take 8
        = v.take 8 := by
      rw [splice_take _ _ _ _ (by omega) (by omega),
        splice_take _ _ _ _ (by omega) (by omega),
        splice_take _ _ _ _ (by omega) (by omega),
        splice_take _ _ _ _ (by omega) (by omega),
        take_set_ge _ _ _ _ (by omega)]
    rw [htake]
  · rw [splice_take _ _ _ _ (by omega) (by omega),
      splice_take _ _ _ _ (by omega) (by omega),
      splice_take _ _ _ _ (by omega) (by omega),
      splice_take _ _ _ _ (by omega) (by omega),
      take_set_ge _ _ _ _ (by omega)]
  · rw [splice_getD_lt _ _ _ _ _ (by rw [encBE_length, hlen4]; omega) (by omega),
      splice_getD_lt _ _ _ _ _ (by omega) (by omega),
      splice_getD_lt _ _ _ _ _ (by rw [encBE_length, hlen2]; omega) (by omega),
      splice_getD_lt _ _ _ _ _ (by omega) (by omega),
      getD_set_self' _ _ _ _ (by omega)]

theorem unspendRawCredit_result (b : Bucket) (k v : Bytes)
    (hget : bGet b k = some v) (hlen : v.length = 94) :
    unspendRawCredit b k
      = some (readBE (v.take 8), bPut b k (v.set 8 ((v.getD 8 0) &&& 254))) := by
  have h0 : copyB (List.replicate 94 0) 0 94 v = v := by
    rw [copyB_exact _ _ _ _ (by rw [hlen]),
      splice_full _ _ (by simp [hlen])]
  simp only [unspendRawCredit, hget, h0]
  rw [if_neg (by omega)]

/-! ## Claim C2 — script offset on read -/

/-- Claim C2, counterexample: on the 11-byte tx-record value
`[0,1,2,3,4,5,6,7,8,9,10]` with stored offset 1 and length 1 the reader
returns `[9]` (= `v[1+8 : 1+8+1]`), not `v[1:2] = [1]` as the claim's
"no further adjustment" reading would have it. -/
theorem claimC2_counterexample :
    fetchRawTxRecordPkScript (fun _ => none) [0, 1, 2, 3, 4, 5, 6, 7, 8, 9, 10]
      0 1 1 = some (Except.ok [9]) ∧
    (([0, 1, 2, 3, 4, 5, 6, 7, 8, 9, 10] : Bytes).drop 1).take 1 = [1] ∧
    ([9] : Bytes) ≠ [1] :=
  ⟨rfl, by decide, by decide⟩

/-- Claim C2 (amended): for a credit whose stored `script_offset` is
non-zero, the reader recovers the output script as
`pkScript = v[off+8 : off+8+len]` — it adds the 8-byte received-time
prefix size (`int64Size`) to the stored offset before slicing the
tx-record value. -/
theorem claimC2_amended (deser : Bytes → Option (List Bytes)) (v : Bytes)
    (index off len : Nat) (hoff : off ≠ 0) (hlen : off + 8 + len ≤ v.length) :
    fetchRawTxRecordPkScript deser v index off len
      = some (Except.ok ((v.drop (off + 8)).take len)) := by
  unfold fetchRawTxRecordPkScript
  rw [if_neg hoff, if_pos hlen]

/-- Witness for the amended C2 at a concrete input. -/
theorem claimC2_amended_witness :
    fetchRawTxRecordPkScript (fun _ => none) [0, 1, 2, 3, 4, 5, 6, 7, 8, 9, 10]
      0 1 1
      = some (Except.ok ((([0, 1, 2, 3, 4, 5, 6, 7, 8, 9, 10] : Bytes).drop
        (1 + 8)).take 1)) :=
  claimC2_amended (fun _ => none) [0, 1, 2, 3, 4, 5, 6, 7, 8, 9, 10] 0 1 1
    (by decide) (by decide)

/-! ## Claim C10 — spendCredit on a missing credit record -/

/-- Claim C10: for a key with no existing record in the credits bucket,
`spendCredit` does not report the missing record as an error: it writes a
full 94-byte credit value that is all zeros except the spent flag bit
(byte 8 becomes 1) and the spender back-reference in bytes 9..81, and it
returns amount 0. -/
theorem claimC10_spendCredit_missing (b : Bucket) (k : Bytes)
    (sp : IndexedIncidence) (hmiss : bGet b k = none)
    (hth : sp.txHash.length = 32) (hbh : sp.blockHash.length = 32) :
    (spendCredit b k sp).1 = 0 ∧
    ∃ nv, (spendCredit b k sp).2 = bPut b k nv ∧
      bGet (spendCredit b k sp).2 k = some nv ∧
      nv.length = 94 ∧ nv.take 8 = List.replicate 8 0 ∧ nv.getD 8 0 = 1 ∧
      (nv.drop 9).take 32 = sp.txHash ∧
      (nv.drop 41).take 4 = encBE 4 sp.blockHeight ∧
      (nv.drop 45).take 32 = sp.blockHash ∧
      (nv.drop 77).take 4 = encBE 4 sp.index ∧
      nv.drop 81 = List.replicate 13 0 := by
  have hv : (bGet b k).getD [] = [] := by rw [hmiss]; rfl
  have h0 : copyB (List.replicate 94 0) 0 94 [] = List.replicate 94 0 := by
    simp [copyB, splice]
  have h1 : ((List.replicate 94 0 : Bytes).getD 8 0 ||| 1) = 1 := by decide
  simp only [spendCredit, hv]
  rw [h0, h1, copyB_exact _ 9 41 _ (by rw [hth]),
    copyB_exact _ 45 77 _ (by rw [hbh])]
  simp only [putUint32At]
  have L1 : ((List.replicate 94 0 : Bytes).set 8 1).length = 94 := by simp
  have L2 : (splice ((List.replicate 94 0 : Bytes).set 8 1) 9
      sp.txHash).length = 94 := by
    rw [splice_length _ _ _ (by omega)]
    exact L1
  have L3 : (splice (splice ((List.replicate 94 0 : Bytes).set 8 1) 9
      sp.txHash) 41 (encBE 4 sp.blockHeight)).length = 94 := by
    rw [splice_length _ _ _ (by rw [encBE_length, L2]; omega)]
    exact L2
  have L4 : (splice (splice (splice ((List.replicate 94 0 : Bytes).set 8 1) 9
      sp.txHash) 41 (encBE 4 sp.blockHeight)) 45 sp.blockHash).length
      = 94 := by
    rw [splice_length _ _ _ (by omega)]
    exact L3
  have L5 : (splice (splice (splice (splice
      ((List.replicate 94 0 : Bytes).set 8 1) 9 sp.txHash) 41
      (encBE 4 sp.blockHeight)) 45 sp.blockHash) 77
      (encBE 4 sp.index)).length = 94 := by
    rw [splice_length _ _ _ (by rw [encBE_length, L4]; omega)]
    exact L4
  have htake8 : (splice (splice (splice (splice
      ((List.replicate 94 0 : Bytes).set 8 1) 9 sp.txHash) 41
      (encBE 4 sp.blockHeight)) 45 sp.blockHash) 77
      (encBE 4 sp.index)).take 8 = List.replicate 8 0 := by
    rw [splice_take _ _ _ _ (by omega) (by omega),
      splice_take _ _ _ _ (by omega) (by omega),
      splice_take _ _ _ _ (by omega) (by omega),
      splice_take _ _ _ _ (by omega) (by omega),
      take_set_ge _ _ _ _ (by omega)]
    decide
  have hseg1 : ((splice ((List.replicate 94 0 : Bytes).set 8 1) 9
      sp.txHash).drop 9).take 32 = sp.txHash := by
    have hx := splice_extract ((List.replicate 94 0 : Bytes).set 8 1) 9
      sp.txHash (by omega)
    rw [hth] at hx
    exact hx
  have hseg2 : ((splice (splice (splice ((List.replicate 94 0 : Bytes).set 8 1)
      9 sp.txHash) 41 (encBE 4 sp.blockHeight)) 45 sp.blockHash).drop 45).take
      32 = sp.blockHash := by
    have hx := splice_extract (splice (splice
      ((List.replicate 94 0 : Bytes).set 8 1) 9 sp.txHash) 41
      (encBE 4 sp.blockHeight)) 45 sp.blockHash (by omega)
    rw [hbh] at hx
    exact hx
  have hseg3 : ((splice (splice ((List.replicate 94 0 : Bytes).set 8 1) 9
      sp.txHash) 41 (encBE 4 sp.blockHeight)).drop 41).take 4
      = encBE 4 sp.blockHeight := by
    have hx := splice_extract (splice ((List.replicate 94 0 : Bytes).set 8 1)
      9 sp.txHash) 41 (encBE 4 sp.blockHeight) (by rw [L2]; omega)
    rw [encBE_length] at hx
    exact hx
  have hseg4 : ((splice (splice (splice (splice
      ((List.replicate 94 0 : Bytes).set 8 1) 9 sp.txHash) 41
      (encBE 4 sp.blockHeight)) 45 sp.blockHash) 77
      (encBE 4 sp.index)).drop 77).take 4 = encBE 4 sp.index := by
    have hx := splice_extract (splice (splice (splice
      ((List.replicate 94 0 : Bytes).set 8 1) 9 sp.txHash) 41
      (encBE 4 sp.blockHeight)) 45 sp.blockHash) 77 (encBE 4 sp.index)
      (by omega)
    rw [encBE_length] at hx
    exact hx
  refine ⟨?_, _, rfl, bGet_bPut_self _ _ _, L5, htake8, ?_, ?_, ?_, ?_, ?_, ?_⟩
  · rw [htake8]
    decide
  · rw [splice_getD_lt _ _ _ _ _ (by rw [encBE_length, L4]; omega) (by omega),
      splice_getD_lt _ _ _ _ _ (by omega) (by omega),
      splice_getD_lt _ _ _ _ _ (by rw [encBE_length, L2]; omega) (by omega),
      splice_getD_lt _ _ _ _ _ (by omega) (by omega),
      getD_set_self' _ _ _ _ (by simp)]
  · rw [splice_window _ _ _ _ _ (by omega) (by omega),
      splice_window _ _ _ _ _ (by omega) (by omega),
      splice_window _ _ _ _ _ (by rw [L2]; omega) (by omega)]
    exact hseg1
  · rw [splice_window _ _ _ _ _ (by omega) (by omega),
      splice_window _ _ _ _ _ (by omega) (by omega)]
    exact hseg3
  · rw [splice_window _ _ _ _ _ (by omega) (by omega)]
    exact hseg2
  · exact hseg4
  · rw [splice_drop _ _ _ _ (by rw [encBE_length, L4]; omega)
        (by rw [encBE_length]),
      splice_drop _ _ _ _ (by omega) (by omega),
      splice_drop _ _ _ _ (by rw [encBE_length, L2]; omega)
        (by rw [encBE_length]; omega),
      splice_drop _ _ _ _ (by omega) (by omega)]
    decide

/-- Witness for C10 at a concrete input: an empty credits bucket and a
spender with 32-byte hashes. -/
theorem claimC10_witness :
    (spendCredit [] [7]
      ⟨List.replicate 32 3, 5, List.replicate 32 4, 2⟩).1 = 0 ∧
    ∃ nv, (spendCredit [] [7]
        ⟨List.replicate 32 3, 5, List.replicate 32 4, 2⟩).2 = bPut [] [7] nv ∧
      bGet (spendCredit [] [7]
        ⟨List.replicate 32 3, 5, List.replicate 32 4, 2⟩).2 [7] = some nv ∧
      nv.length = 94 ∧ nv.take 8 = List.replicate 8 0 ∧ nv.getD 8 0 = 1 ∧
      (nv.drop 9).take 32
        = (⟨List.replicate 32 3, 5, List.replicate 32 4, 2⟩ :
            IndexedIncidence).txHash ∧
      (nv.drop 41).take 4 = encBE 4 5 ∧
      (nv.drop 45).take 32
        = (⟨List.replicate 32 3, 5, List.replicate 32 4, 2⟩ :
            IndexedIncidence).blockHash ∧
      (nv.drop 77).take 4 = encBE 4 2 ∧
      nv.drop 81 = List.replicate 13 0 :=
  claimC10_spendCredit_missing [] [7]
    ⟨List.replicate 32 3, 5, List.replicate 32 4, 2⟩ (by decide) (by decide)
    (by decide)

/-! ## Claim C9 — decoder error kinds -/

/-- Claim C9, counterexample: `fetchMultisigOut` on an empty key and value
fails with a `Database` error, not the `Data` error the claim requires of
every decoder. -/
theorem claimC9_counterexample :
    fetchMultisigOut [] [] = Except.error ErrCode.database ∧
    ErrCode.database ≠ ErrCode.data :=
  ⟨rfl, by decide⟩

/-- Claim C9 (amended): every decoder embedded here fails with a `Data`
error on an input shorter than its required minimum — except
`fetchMultisigOut`, which rejects a key that is not 36 bytes or a value
that is not 135 bytes with a `Database` error. -/
theorem claimC9_amended :
    (∀ root : Bucket, ((bGet root rootMinedBalance).getD []).length ≠ 8 →
      fetchMinedBalance root = .error .data) ∧
    (∀ k : Bytes, k.length < 36 → readCanonicalOutPoint k = .error .data) ∧
    (∀ v h : Bytes, v.length < 46 → appendRawBlockRecord v h = .error .data) ∧
    (∀ v h : Bytes, v.length < 46 →
      removeRawBlockRecord v h = some (.error .data)) ∧
    (∀ v : Bytes, v.length < 9 → fetchRawCreditAmount v = .error .data) ∧
    (∀ v : Bytes, v.length < 9 → fetchRawCreditAmountSpent v = .error .data) ∧
    (∀ v : Bytes, v.length < 36 → readUnspentBlock v = .error .data) ∧
    (∀ v : Bytes, v.length < 9 →
      fetchRawUnminedCreditAmount v = .error .data) ∧
    (∀ k : Bytes, k.length < 32 → readRawUnminedHash k = .error .data) ∧
    (∀ k v : Bytes, k.length ≠ 36 ∨ v.length ≠ 135 →
      fetchMultisigOut k v = .error .database) := by
  refine ⟨?_, ?_, ?_, ?_, ?_, ?_, ?_, ?_, ?_, ?_⟩
  · intro root h
    unfold fetchMinedBalance
    rw [if_pos h]
  · intro k h
    unfold readCanonicalOutPoint
    rw [if_pos h]
  · intro v h hlen
    unfold appendRawBlockRecord
    rw [if_pos hlen]
  · intro v h hlen
    unfold removeRawBlockRecord
    rw [if_pos hlen]
  · intro v h
    unfold fetchRawCreditAmount
    rw [if_pos h]
  · intro v h
    unfold fetchRawCreditAmountSpent
    rw [if_pos h]
  · intro v h
    unfold readUnspentBlock
    rw [if_pos h]
  · intro v h
    unfold fetchRawUnminedCreditAmount
    rw [if_pos h]
  · intro k h
    unfold readRawUnminedHash
    rw [if_pos h]
  · intro k v h
    unfold fetchMultisigOut
    by_cases hk : k.length = 36
    · have hv : v.length ≠ 135 := by tauto
      rw [if_neg (by omega), if_pos hv]
    · rw [if_pos hk]

/-- Witness for the amended C9: each decoder evaluated at a concrete
too-short input. -/
theorem claimC9_amended_witness :
    fetchMinedBalance [] = Except.error ErrCode.data ∧
    readCanonicalOutPoint [] = Except.error ErrCode.data ∧
    appendRawBlockRecord [] [] = Except.error ErrCode.data ∧
    removeRawBlockRecord [] [] = some (Except.error ErrCode.data) ∧
    fetchRawCreditAmount [] = Except.error ErrCode.data ∧
    fetchRawCreditAmountSpent [] = Except.error ErrCode.data ∧
    readUnspentBlock [] = Except.error ErrCode.data ∧
    fetchRawUnminedCreditAmount [] = Except.error ErrCode.data ∧
    readRawUnminedHash [] = Except.error ErrCode.data ∧
    fetchMultisigOut [] [] = Except.error ErrCode.database :=
  ⟨claimC9_amended.1 [] (by decide),
   claimC9_amended.2.1 [] (by decide),
   claimC9_amended.2.2.1 [] [] (by decide),
   claimC9_amended.2.2.2.1 [] [] (by decide),
   claimC9_amended.2.2.2.2.1 [] (by decide),
   claimC9_amended.2.2.2.2.2.1 [] (by decide),
   claimC9_amended.2.2.2.2.2.2.1 [] (by decide),
   claimC9_amended.2.2.2.2.2.2.2.1 [] (by decide),
   claimC9_amended.2.2.2.2.2.2.2.2.1 [] (by decide),
   claimC9_amended.2.2.2.2.2.2.2.2.2 [] [] (Or.inl (by decide))⟩

/-! ## Claim C3 — createStore on an empty namespace -/

/-- Claim C3, counterexample: `createStore` creates eleven sub-buckets,
not twelve — even after deduplication the created bucket list has length
11, so "all twelve sibling buckets exist" fails on the fresh store. -/
theorem claimC3_counterexample :
    (createStore ⟨[], []⟩ 0).map (fun ns => ns.buckets.length)
      = .ok 11 ∧
    (createStore ⟨[], []⟩ 0).map (fun ns => ns.buckets.dedup.length)
      = .ok 11 ∧
    (11 : Nat) ≠ 12 :=
  ⟨rfl, rfl, by decide⟩

/-- Claim C3 (amended): for every empty namespace, `createStore` succeeds
and afterwards `vers` holds `[0,0,0,2]`, `bal` holds an 8-byte zero
(`fetchMinedBalance` returns 0), the creation date is recorded, and all
eleven sibling buckets exist (pairwise distinct). -/
theorem claimC3_amended (ns : NamespaceState) (now : Nat)
    (hempty : ns = ⟨[], []⟩) :
    ∃ ns', createStore ns now = .ok ns' ∧
      bGet ns'.root rootVersion = some [0, 0, 0, 2] ∧
      bGet ns'.root rootMinedBalance = some (List.replicate 8 0) ∧
      fetchMinedBalance ns'.root = .ok 0 ∧
      bGet ns'.root rootCreateDate = some (encBE 8 now) ∧
      ns'.buckets = [bucketBlocks, bucketTxRecords, bucketCredits,
        bucketDebits, bucketUnspent, bucketUnmined, bucketUnminedCredits,
        bucketUnminedInputs, bucketScripts, bucketMultisig,
        bucketMultisigUsp] ∧
      ns'.buckets.length = 11 ∧ ns'.buckets.Nodup := by
  subst hempty
  have e1 : bPut ([] : Bucket) rootVersion (encBE 4 2)
      = [(rootVersion, encBE 4 2)] := rfl
  have e2 : bPut [(rootVersion, encBE 4 2)] rootCreateDate (encBE 8 now)
      = [(rootVersion, encBE 4 2), (rootCreateDate, encBE 8 now)] := by
    simp only [bPut, if_neg (show ¬rootVersion = rootCreateDate by decide)]
  have e3 : bPut [(rootVersion, encBE 4 2), (rootCreateDate, encBE 8 now)]
      rootMinedBalance (List.replicate 8 0)
      = [(rootVersion, encBE 4 2), (rootCreateDate, encBE 8 now),
         (rootMinedBalance, List.replicate 8 0)] := by
    simp only [bPut, if_neg (show ¬rootVersion = rootMinedBalance by decide),
      if_neg (show ¬rootCreateDate = rootMinedBalance by decide)]
  have hcs : createStore ⟨[], []⟩ now = .ok
      { root := [(rootVersion, encBE 4 2), (rootCreateDate, encBE 8 now),
          (rootMinedBalance, List.replicate 8 0)]
        buckets := [bucketBlocks, bucketTxRecords, bucketCredits,
          bucketDebits, bucketUnspent, bucketUnmined, bucketUnminedCredits,
          bucketUnminedInputs, bucketScripts, bucketMultisig,
          bucketMultisigUsp] } := by
    unfold createStore
    rw [if_neg (by simp)]
    rw [e1, e2, e3]
  refine ⟨_, hcs, ?_, ?_, ?_, ?_, ?_, ?_, ?_⟩
  · rfl
  · rfl
  · rfl
  · rfl
  · rfl
  · show ([bucketBlocks, bucketTxRecords, bucketCredits, bucketDebits,
      bucketUnspent, bucketUnmined, bucketUnminedCredits, bucketUnminedInputs,
      bucketScripts, bucketMultisig, bucketMultisigUsp] : List Bytes).length
      = 11
    decide
  · show ([bucketBlocks, bucketTxRecords, bucketCredits, bucketDebits,
      bucketUnspent, bucketUnmined, bucketUnminedCredits, bucketUnminedInputs,
      bucketScripts, bucketMultisig, bucketMultisigUsp] : List Bytes).Nodup
    decide

/-- Witness for the amended C3 at a concrete creation time. -/
theorem claimC3_amended_witness :
    ∃ ns', createStore ⟨[], []⟩ 1700000000 = .ok ns' ∧
      bGet ns'.root rootVersion = some [0, 0, 0, 2] ∧
      bGet ns'.root rootMinedBalance = some (List.replicate 8 0) ∧
      fetchMinedBalance ns'.root = .ok 0 ∧
      bGet ns'.root rootCreateDate = some (encBE 8 1700000000) ∧
      ns'.buckets = [bucketBlocks, bucketTxRecords, bucketCredits,
        bucketDebits, bucketUnspent, bucketUnmined, bucketUnminedCredits,
        bucketUnminedInputs, bucketScripts, bucketMultisig,
        bucketMultisigUsp] ∧
      ns'.buckets.length = 11 ∧ ns'.buckets.Nodup :=
  claimC3_amended ⟨[], []⟩ 1700000000 rfl

/-! ## Claim C6 — multisig setters -/

/-- Claim C6, counterexample: a multisig record on the stake tree (flag
byte `0b10`) loses its Tree bit under `setMultisigOutSpent`, which
overwrites the whole flag byte with `1`: the decoded tree changes from 1
(stake) to 0 (regular). -/
theorem claimC6_counterexample :
    fetchMultisigOutTree (valueMultisigOut (List.replicate 20 1) 1 2 false 1
      (List.replicate 32 5) 50 1000 (List.replicate 32 0) 0
      (List.replicate 32 6)) = 1 ∧
    fetchMultisigOutTree (setMultisigOutSpent (valueMultisigOut
      (List.replicate 20 1) 1 2 false 1 (List.replicate 32 5) 50 1000
      (List.replicate 32 0) 0 (List.replicate 32 6))
      (List.replicate 32 9) 0) = 0 ∧
    (1 : Nat) ≠ 0 :=
  ⟨by decide, by decide, by decide⟩

/-- Claim C6 (amended): on a 135-byte multisig value,
`setMultisigOutSpent` mutates only the flag byte — overwritten with `1`,
which sets Spent but also clears the Tree bit — the SpentBy field (bytes
67..99) and SpentByIndex (bytes 99..103); `setMultisigOutUnSpent` mutates
only the flag byte (overwritten with `0`), bytes 67..98 (zeroed — byte 98
keeps its old value) and SpentByIndex (set to `0xFFFFFFFF`).  Every byte
outside `{22} ∪ [67,103)` is unchanged by both. -/
theorem claimC6_amended (v h : Bytes) (i : Nat) (hv : v.length = 135)
    (hh : h.length = 32) :
    ((setMultisigOutSpent v h i).length = 135 ∧
     (setMultisigOutSpent v h i).getD 22 0 = 1 ∧
     ((setMultisigOutSpent v h i).drop 67).take 32 = h ∧
     ((setMultisigOutSpent v h i).drop 99).take 4 = encBE 4 i ∧
     ∀ j, j ≠ 22 → ¬(67 ≤ j ∧ j < 103) →
       (setMultisigOutSpent v h i).getD j 0 = v.getD j 0) ∧
    ((setMultisigOutUnSpent v).length = 135 ∧
     (setMultisigOutUnSpent v).getD 22 0 = 0 ∧
     ((setMultisigOutUnSpent v).drop 67).take 31 = List.replicate 31 0 ∧
     (setMultisigOutUnSpent v).getD 98 0 = v.getD 98 0 ∧
     ((setMultisigOutUnSpent v).drop 99).take 4 = [255, 255, 255, 255] ∧
     ∀ j, j ≠ 22 → ¬(67 ≤ j ∧ j < 103) →
       (setMultisigOutUnSpent v).getD j 0 = v.getD j 0) := by
  have hset1 : (v.set 22 1).length = 135 := by rw [List.length_set, hv]
  have hset0 : (v.set 22 0).length = 135 := by rw [List.length_set, hv]
  have hsp : setMultisigOutSpent v h i
      = splice (splice (v.set 22 1) 67 h) 99 (encBE 4 i) := by
    unfold setMultisigOutSpent putUint32At
    rw [copyB_exact _ _ _ _ (by rw [hh])]
  have hL2 : (splice (v.set 22 1) 67 h).length = 135 := by
    rw [splice_length _ _ _ (by omega)]
    exact hset1
  have hs : (List.replicate 32 0 : Bytes).take
      (min (98 - 67) (List.replicate 32 0 : Bytes).length)
      = List.replicate 31 0 := by decide
  have hup : setMultisigOutUnSpent v
      = splice (splice (v.set 22 0) 67 (List.replicate 31 0)) 99
        (encBE 4 4294967295) := by
    unfold setMultisigOutUnSpent putUint32At copyB
    rw [hs]
  have hL2u : (splice (v.set 22 0) 67 (List.replicate 31 0)).length = 135 := by
    rw [splice_length _ _ _ (by simp [hset0])]
    exact hset0
  constructor
  · refine ⟨?_, ?_, ?_, ?_, ?_⟩
    · rw [hsp, splice_length _ _ _ (by rw [encBE_length, hL2]; omega)]
      exact hL2
    · rw [hsp, splice_getD_lt _ _ _ _ _ (by rw [encBE_length, hL2]; omega)
        (by omega),
        splice_getD_lt _ _ _ _ _ (by omega) (by omega),
        getD_set_self' _ _ _ _ (by omega)]
    · rw [hsp, splice_window _ _ _ _ _ (by omega) (by omega)]
      have hx := splice_extract (v.set 22 1) 67 h (by omega)
      rw [hh] at hx
      exact hx
    · rw [hsp]
      have hx := splice_extract (splice (v.set 22 1) 67 h) 99 (encBE 4 i)
        (by omega)
      rw [encBE_length] at hx
      exact hx
    · intro j hj hrange
      rw [hsp]
      by_cases hj67 : j < 67
      · rw [splice_getD_lt _ _ _ _ _ (by rw [encBE_length, hL2]; omega)
          (by omega),
          splice_getD_lt _ _ _ _ _ (by omega) (by omega),
          getD_set_ne' _ _ _ _ _ (by omega)]
      · have h103 : 103 ≤ j := by omega
        rw [splice_getD_ge _ _ _ _ _ (by rw [encBE_length, hL2]; omega)
          (by rw [encBE_length]; omega),
          splice_getD_ge _ _ _ _ _ (by omega) (by omega),
          getD_set_ne' _ _ _ _ _ (by omega)]
  · refine ⟨?_, ?_, ?_, ?_, ?_, ?_⟩
    · rw [hup, splice_length _ _ _ (by rw [encBE_length, hL2u]; omega)]
      exact hL2u
    · rw [hup, splice_getD_lt _ _ _ _ _ (by rw [encBE_length, hL2u]; omega)
        (by omega),
        splice_getD_lt _ _ _ _ _ (by simp [hset0]) (by omega),
        getD_set_self' _ _ _ _ (by omega)]
    · rw [hup, splice_window _ _ _ _ _ (by omega) (by simp)]
      have hx := splice_extract (v.set 22 0) 67 (List.replicate 31 0)
        (by omega)
      rw [List.length_replicate] at hx
      exact hx
    · rw [hup, splice_getD_lt _ _ _ _ _ (by rw [encBE_length, hL2u]; omega)
        (by omega),
        splice_getD_ge _ _ _ _ _ (by simp [hset0]) (by simp),
        getD_set_ne' _ _ _ _ _ (by omega)]
    · rw [hup]
      have hx := splice_extract (splice (v.set 22 0) 67 (List.replicate 31 0))
        99 (encBE 4 4294967295) (by omega)
      rw [encBE_length] at hx
      rw [hx]
      decide
    · intro j hj hrange
      rw [hup]
      by_cases hj67 : j < 67
      · rw [splice_getD_lt _ _ _ _ _ (by rw [encBE_length, hL2u]; omega)
          (by omega),
          splice_getD_lt _ _ _ _ _ (by simp [hset0]) (by omega),
          getD_set_ne' _ _ _ _ _ (by omega)]
      · have h103 : 103 ≤ j := by omega
        rw [splice_getD_ge _ _ _ _ _ (by rw [encBE_length, hL2u]; omega)
          (by rw [encBE_length]; omega),
          splice_getD_ge _ _ _ _ _ (by simp [hset0]) (by simp; omega),
          getD_set_ne' _ _ _ _ _ (by omega)]

set_option maxRecDepth 4000 in
/-- Witness for the amended C6 at a concrete 135-byte value. -/
theorem claimC6_amended_witness :
    ((setMultisigOutSpent (List.replicate 135 3) (List.replicate 32 9) 7).length
        = 135 ∧
     (setMultisigOutSpent (List.replicate 135 3)
       (List.replicate 32 9) 7).getD 22 0 = 1 ∧
     ((setMultisigOutSpent (List.replicate 135 3)
       (List.replicate 32 9) 7).drop 67).take 32 = List.replicate 32 9 ∧
     ((setMultisigOutSpent (List.replicate 135 3)
       (List.replicate 32 9) 7).drop 99).take 4 = encBE 4 7 ∧
     ∀ j, j ≠ 22 → ¬(67 ≤ j ∧ j < 103) →
       (setMultisigOutSpent (List.replicate 135 3)
         (List.replicate 32 9) 7).getD j 0
         = (List.replicate 135 3 : Bytes).getD j 0) ∧
    ((setMultisigOutUnSpent (List.replicate 135 3)).length = 135 ∧
     (setMultisigOutUnSpent (List.replicate 135 3)).getD 22 0 = 0 ∧
     ((setMultisigOutUnSpent (List.replicate 135 3)).drop 67).take 31
        = List.replicate 31 0 ∧
     (setMultisigOutUnSpent (List.replicate 135 3)).getD 98 0
        = (List.replicate 135 3 : Bytes).getD 98 0 ∧
     ((setMultisigOutUnSpent (List.replicate 135 3)).drop 99).take 4
        = [255, 255, 255, 255] ∧
     ∀ j, j ≠ 22 → ¬(67 ≤ j ∧ j < 103) →
       (setMultisigOutUnSpent (List.replicate 135 3)).getD j 0
         = (List.replicate 135 3 : Bytes).getD j 0) :=
  claimC6_amended (List.replicate 135 3) (List.replicate 32 9) 7 (by decide)
    (by decide)

/-! ## Claim C4 — unspend after spend round trip -/

/-- Claim C4: on an existing 94-byte credit, `spendCredit` followed by
`unspendRawCredit` on the same key restores bytes 0..8 (amount and flag
byte) to their original contents with the spent bit cleared
(`byte8 &&& 254`), and both calls return the credit's amount, the same
amount both times. -/
theorem claimC4_unspend_spend_round_trip (b : Bucket) (k v : Bytes)
    (sp : IndexedIncidence) (hget : bGet b k = some v)
    (hlen : v.length = 94) :
    ∃ a1 b1 a2 b2 v2,
      spendCredit b k sp = (a1, b1) ∧
      unspendRawCredit b1 k = some (a2, b2) ∧
      bGet b2 k = some v2 ∧
      v2.take 8 = v.take 8 ∧
      v2.getD 8 0 = (v.getD 8 0) &&& 254 ∧
      (v2.getD 8 0) &&& 1 = 0 ∧
      a1 = readBE (v.take 8) ∧ a2 = a1 := by
  obtain ⟨nv, hsp, hnvlen, hnvtake, hnvgetD⟩ :=
    spendCredit_result b k v sp hget hlen
  have hb1 : bGet (bPut b k nv) k = some nv := bGet_bPut_self _ _ _
  have huns := unspendRawCredit_result (bPut b k nv) k nv hb1 hnvlen
  refine ⟨readBE (v.take 8), bPut b k nv, readBE (nv.take 8),
    bPut (bPut b k nv) k (nv.set 8 ((nv.getD 8 0) &&& 254)),
    nv.set 8 ((nv.getD 8 0) &&& 254), hsp, huns, bGet_bPut_self _ _ _,
    ?_, ?_, ?_, rfl, ?_⟩
  · rw [take_set_ge _ _ _ _ (by omega), hnvtake]
  · rw [getD_set_self' _ _ _ _ (by omega), hnvgetD, or_one_and_254]
  · rw [getD_set_self' _ _ _ _ (by omega), and_254_and_one]
  · rw [hnvtake]

set_option maxRecDepth 8000 in
/-- Witness for C4: a concrete unspent credit of amount 1000 under key
`[5]`. -/
theorem claimC4_witness :
    ∃ a1 b1 a2 b2 v2,
      spendCredit [([5], valueUnspentCredit 1000 false false 0 2 100 25 0)]
        [5] ⟨List.replicate 32 3, 7, List.replicate 32 4, 1⟩ = (a1, b1) ∧
      unspendRawCredit b1 [5] = some (a2, b2) ∧
      bGet b2 [5] = some v2 ∧
      v2.take 8
        = (valueUnspentCredit 1000 false false 0 2 100 25 0).take 8 ∧
      v2.getD 8 0
        = ((valueUnspentCredit 1000 false false 0 2 100 25 0).getD 8 0)
            &&& 254 ∧
      (v2.getD 8 0) &&& 1 = 0 ∧
      a1 = readBE ((valueUnspentCredit 1000 false false 0 2 100 25 0).take 8) ∧
      a2 = a1 :=
  claimC4_unspend_spend_round_trip
    [([5], valueUnspentCredit 1000 false false 0 2 100 25 0)] [5]
    (valueUnspentCredit 1000 false false 0 2 100 25 0)
    ⟨List.replicate 32 3, 7, List.replicate 32 4, 1⟩ (by decide) (by decide)

/-! ## Claim C7 — fetchChainHeight -/

/-- Claim C7, counterexample: with a single block record at height 0 and
`from = 0`, a record is found but `fetchChainHeight` still errors, because
`lastValidHeight` 0 is also its not-found sentinel — refuting "it returns
an error only when no block record was found at all". -/
theorem claimC7_counterexample :
    fetchChainHeight [(keyBlockRecord 0, [1])] 0 10 = some (.error ()) ∧
    bGet [(keyBlockRecord 0, [1])] (keyBlockRecord 0) = some [1] :=
  ⟨rfl, rfl⟩

/-- The probe loop of `fetchChainHeight`, solved: if the first missing
height after `start` is at offset `j` (and the fuel covers it), the loop
returns its `lastValid` accumulator when `j = 0` and the last hit
`start + j - 1` otherwise. -/
theorem chainHeightLoop_spec (b : Bucket) (j : Nat) :
    ∀ start lastValid fuel,
    bGet b (keyBlockRecord (start + j)) = none →
    (∀ i, i < j → bGet b (keyBlockRecord (start + i)) ≠ none) →
    j < fuel →
    chainHeightLoop b start lastValid fuel
      = some (if j = 0 then lastValid else start + (j - 1)) := by
  induction j with
  | zero =>
    intro start lastValid fuel hmiss hhit hfuel
    obtain ⟨f, rfl⟩ : ∃ f, fuel = f + 1 := ⟨fuel - 1, by omega⟩
    rw [show start + 0 = start by omega] at hmiss
    simp only [chainHeightLoop, hmiss]
    simp
  | succ j ih =>
    intro start lastValid fuel hmiss hhit hfuel
    obtain ⟨f, rfl⟩ : ∃ f, fuel = f + 1 := ⟨fuel - 1, by omega⟩
    have h0 : bGet b (keyBlockRecord start) ≠ none := by
      have := hhit 0 (by omega)
      rw [show start + 0 = start by omega] at this
      exact this
    obtain ⟨w, hw⟩ : ∃ w, bGet b (keyBlockRecord start) = some w := by
      cases hx : bGet b (keyBlockRecord start) with
      | none => exact absurd hx h0
      | some w => exact ⟨w, rfl⟩
    simp only [chainHeightLoop, hw]
    rw [ih (start + 1) start f
      (by rw [show start + 1 + j = start + (j + 1) by omega]; exact hmiss)
      (fun i hi => by
        have := hhit (i + 1) (by omega)
        rw [show start + (i + 1) = start + 1 + i by omega] at this
        exact this)
      (by omega)]
    rcases Nat.eq_zero_or_pos j with hj | hj
    · subst hj
      simp
    · rw [if_neg (by omega), if_neg (by omega)]
      congr 1
      omega

/-- Claim C7 (amended): `fetchChainHeight(from)` probes heights `from`,
`from+1`, ... until the first missing block record.  If the first probe
already misses it errors; otherwise it returns the last height that had a
record — except that a last height of 0 is also reported as an error,
because 0 doubles as the nothing-found sentinel. -/
theorem claimC7_amended (b : Bucket) (start j fuel : Nat)
    (hmiss : bGet b (keyBlockRecord (start + j)) = none)
    (hhit : ∀ i, i < j → bGet b (keyBlockRecord (start + i)) ≠ none)
    (hfuel : j < fuel) :
    (j = 0 → fetchChainHeight b start fuel = some (.error ())) ∧
    (0 < j → start + j = 1 →
      fetchChainHeight b start fuel = some (.error ())) ∧
    (0 < j → start + j ≠ 1 →
      fetchChainHeight b start fuel = some (.ok (start + (j - 1)))) := by
  unfold fetchChainHeight
  rw [chainHeightLoop_spec b j start 0 fuel hmiss hhit hfuel]
  refine ⟨?_, ?_, ?_⟩
  · intro hj
    rw [if_pos hj]
    rfl
  · intro hj hone
    rw [if_neg (by omega), Option.map_some']
    rw [if_pos (by omega)]
  · intro hj hone
    rw [if_neg (by omega), Option.map_some']
    rw [if_neg (by omega)]

/-- Witness for the amended C7: a single record at height 5, probed from
5 — the loop stops at height 6 and reports 5. -/
theorem claimC7_amended_witness :
    fetchChainHeight [(keyBlockRecord 5, [1])] 5 3
      = some (.ok (5 + (1 - 1))) :=
  (claimC7_amended [(keyBlockRecord 5, [1])] 5 1 3 (by decide)
    (fun i hi => by
      have h0 : i = 0 := by omega
      subst h0
      decide)
    (by omega)).2.2 (by omega) (by omega)

/-! ## Block-record chunk lemmas (for the remove/append round trip) -/

theorem chunks32_length (count : Nat) :
    ∀ rest : Bytes, (chunks32 count rest).length = count := by
  induction count with
  | zero => intro rest; rfl
  | succ count ih =>
    intro rest
    simp only [chunks32, List.length_cons, ih]

theorem chunks32_mem_length (count : Nat) :
    ∀ rest : Bytes, 32 * count ≤ rest.length →
      ∀ c ∈ chunks32 count rest, c.length = 32 := by
  induction count with
  | zero => intro rest _ c hc; simp [chunks32] at hc
  | succ count ih =>
    intro rest hr c hc
    simp only [chunks32, List.mem_cons] at hc
    rcases hc with hc | hc
    · subst hc
      simp only [List.length_take]
      omega
    · exact ih (rest.drop 32) (by simp; omega) c hc

theorem flatten_length_32 (cs : List Bytes) (hc : ∀ c ∈ cs, c.length = 32) :
    cs.flatten.length = 32 * cs.length := by
  induction cs with
  | nil => rfl
  | cons c cs ih =>
    simp only [List.flatten_cons, List.length_append, List.length_cons]
    rw [hc c (List.mem_cons_self _ _),
      ih (fun x hx => hc x (List.mem_cons_of_mem _ hx))]
    ring

theorem removeChunks_eq_filter (count : Nat) :
    ∀ rest txHash : Bytes,
      removeChunks count rest txHash
        = ((chunks32 count rest).filter (fun c => c != txHash)).flatten := by
  induction count with
  | zero => intro rest txHash; rfl
  | succ count ih =>
    intro rest txHash
    simp only [removeChunks, chunks32, List.filter_cons]
    by_cases ht : rest.take 32 = txHash
    · rw [if_pos ht, if_neg (by simp [ht])]
      exact ih (rest.drop 32) txHash
    · rw [if_neg ht, if_pos (by simp [ht])]
      simp only [List.flatten_cons]
      rw [ih (rest.drop 32) txHash]

theorem chunks32_flatten_append (cs : List Bytes) (t : Bytes)
    (hc : ∀ c ∈ cs, c.length = 32) (ht : t.length = 32) :
    chunks32 (cs.length + 1) (cs.flatten ++ t) = cs ++ [t] := by
  induction cs with
  | nil =>
    simp only [List.flatten_nil, List.nil_append, List.length_nil, chunks32]
    rw [← ht, List.take_length]
  | cons c cs ih =>
    have hcl : c.length = 32 := hc c (List.mem_cons_self _ _)
    simp only [List.flatten_cons, List.length_cons, chunks32,
      List.append_assoc]
    rw [List.take_append_of_le_length (by omega), ← hcl, List.take_length,
      List.drop_append_of_le_length (by omega), hcl, ← hcl,
      List.drop_length, List.nil_append, hcl]
    have hih := ih (fun x hx => hc x (List.mem_cons_of_mem _ hx))
    simp only [chunks32] at hih
    rw [hih]
    rfl

theorem take4_at_42 (a b : Bytes) (ha : 46 ≤ a.length) :
    ((a ++ b).drop 42).take 4 = (a.drop 42).take 4 := by
  rw [List.drop_append_of_le_length (by omega),
    List.take_append_of_le_length (by simp; omega)]

/-! ## Claim C5 — block-record remove/append round trip -/

/-- Claim C5: on a well-formed block-record value (length `46 + 32·n`,
`n_tx` field equal to `n`) in which the hash occurs exactly once among
the trailing 32-byte segments, removing the hash and appending it again
yields a value of the same length whose 46-byte prefix (including the
`n_tx` field) is unchanged and whose trailing hash list is a permutation
of the original. -/
theorem claimC5_remove_append_round_trip (v txHash : Bytes) (n : Nat)
    (hlen : v.length = 46 + 32 * n)
    (hbytes : ∀ x ∈ v, x < 256)
    (hh : txHash.length = 32)
    (hfield : readBE ((v.drop 42).take 4) = n)
    (hcount : (chunks32 n (v.drop 46)).count txHash = 1) :
    ∃ res out,
      removeRawBlockRecord v txHash = some (.ok res) ∧
      appendRawBlockRecord res txHash = .ok out ∧
      out.length = v.length ∧
      out.take 46 = v.take 46 ∧
      (chunks32 n (out.drop 46)).Perm (chunks32 n (v.drop 46)) := by
  have h256 : (256 : Nat) ^ 4 = 2 ^ 32 := by norm_num
  have hlen4 : ((v.drop 42).take 4).length = 4 := by
    simp only [List.length_take, List.length_drop, hlen]
    omega
  have hn32 : n < 2 ^ 32 := by
    have hr := readBE_lt ((v.drop 42).take 4)
      (fun x hx => hbytes x (List.drop_subset _ _ (List.take_subset _ _ hx)))
    rw [hlen4, hfield, h256] at hr
    exact hr
  have hn1 : 1 ≤ n := by
    rcases Nat.eq_zero_or_pos n with h0 | h0
    · subst h0
      simp [chunks32] at hcount
    · exact h0
  have hchmem : ∀ c ∈ chunks32 n (v.drop 46), c.length = 32 :=
    chunks32_mem_length n (v.drop 46)
      (by simp only [List.length_drop, hlen]; omega)
  have hperm0 := List.filter_append_perm (fun c => c != txHash)
    (chunks32 n (v.drop 46))
  have hfneg : (chunks32 n (v.drop 46)).filter
      (fun c => !(c != txHash)) = [txHash] := by
    have heq : (fun c : Bytes => !(c != txHash)) = (fun c => c == txHash) := by
      funext c
      simp [bne]
    rw [heq, List.filter_beq, hcount]
    rfl
  have hcl : (chunks32 n (v.drop 46)).length = n := chunks32_length n _
  have hflen : ((chunks32 n (v.drop 46)).filter
      (fun c => c != txHash)).length = n - 1 := by
    have hl := hperm0.length_eq
    rw [List.length_append, hfneg] at hl
    simp only [List.length_cons, List.length_nil] at hl
    omega
  have hkept : removeChunks n (v.drop 46) txHash
      = ((chunks32 n (v.drop 46)).filter (fun c => c != txHash)).flatten :=
    removeChunks_eq_filter n (v.drop 46) txHash
  have hkeptlen : (removeChunks n (v.drop 46) txHash).length
      = 32 * (n - 1) := by
    rw [hkept, flatten_length_32 _ (fun c hc =>
      hchmem c (List.mem_of_mem_filter hc)), hflen]
  have hquot : (v.length - 46) / 32 = n := by
    rw [hlen]
    omega
  have h46 : (v.take 46).length = 46 := by
    simp only [List.length_take]
    omega
  have hbaselen : (v.take 46 ++ removeChunks n (v.drop 46) txHash).length
      = 46 + 32 * (n - 1) := by
    rw [List.length_append, h46, hkeptlen]
  have hval42 : (((v.take 46 ++ removeChunks n (v.drop 46) txHash)).drop
      42).take 4 = (v.drop 42).take 4 := by
    rw [take4_at_42 _ _ (by omega), List.drop_take]
    norm_num [List.take_take]
  have henc : encBE 4 (n + 2 ^ 32 - 1) = encBE 4 (n - 1) := by
    calc encBE 4 (n + 2 ^ 32 - 1)
        = encBE 4 ((n + 2 ^ 32 - 1) % 256 ^ 4) := (encBE_mod _ _).symm
      _ = encBE 4 (n - 1) := by
          rw [show (n + 2 ^ 32 - 1) % 256 ^ 4 = n - 1 by rw [h256]; omega]
  have hrem : removeRawBlockRecord v txHash
      = some (.ok (splice (v.take 46 ++ removeChunks n (v.drop 46) txHash)
          42 (encBE 4 (n - 1)))) := by
    simp only [removeRawBlockRecord]
    rw [if_neg (by omega), hquot]
    rw [if_pos (by rw [hkeptlen]; omega)]
    rw [show v.length - 32 - 46 - (removeChunks n (v.drop 46) txHash).length
        = 0 by rw [hkeptlen]; omega]
    rw [show (List.replicate 0 0 : Bytes) = [] from rfl, List.append_nil]
    simp only [putUint32At]
    rw [hval42, hfield, henc]
  have hreslen : (splice (v.take 46 ++ removeChunks n (v.drop 46) txHash) 42
      (encBE 4 (n - 1))).length = 46 + 32 * (n - 1) := by
    rw [splice_length _ _ _ (by rw [encBE_length, hbaselen]; omega)]
    exact hbaselen
  have hres42 : ((splice (v.take 46 ++ removeChunks n (v.drop 46) txHash) 42
      (encBE 4 (n - 1))).drop 42).take 4 = encBE 4 (n - 1) := by
    have hx := splice_extract (v.take 46 ++ removeChunks n (v.drop 46) txHash)
      42 (encBE 4 (n - 1)) (by omega)
    rw [encBE_length] at hx
    exact hx
  have hresdrop46 : (splice (v.take 46 ++ removeChunks n (v.drop 46) txHash)
      42 (encBE 4 (n - 1))).drop 46 = removeChunks n (v.drop 46) txHash := by
    rw [splice_drop _ _ _ _ (by rw [encBE_length, hbaselen]; omega)
      (by rw [encBE_length])]
    exact List.drop_left' h46
  have happ : appendRawBlockRecord (splice (v.take 46 ++
      removeChunks n (v.drop 46) txHash) 42 (encBE 4 (n - 1))) txHash
      = .ok (splice ((splice (v.take 46 ++ removeChunks n (v.drop 46) txHash)
          42 (encBE 4 (n - 1))) ++ txHash) 42 (encBE 4 n)) := by
    simp only [appendRawBlockRecord]
    rw [if_neg (by omega)]
    rw [take4_at_42 _ _ (by omega), hres42, readBE_encBE,
      show (n - 1) % 256 ^ 4 + 1 = n by rw [h256]; omega]
    simp only [putUint32At]
  refine ⟨_, _, hrem, happ, ?_, ?_, ?_⟩
  · rw [splice_length _ _ _
      (by rw [encBE_length, List.length_append, hreslen, hh]; omega),
      List.length_append, hreslen, hh, hlen]
    omega
  · have hsplit : ∀ l : Bytes, l.take 46 = l.take 42 ++ (l.drop 42).take 4 :=
      fun l => by rw [show (46 : Nat) = 42 + 4 from rfl, List.take_add]
    have hout42 : (splice ((splice (v.take 46 ++
        removeChunks n (v.drop 46) txHash) 42 (encBE 4 (n - 1))) ++ txHash)
        42 (encBE 4 n)).take 42 = v.take 42 := by
      rw [splice_take _ _ _ _
          (by rw [List.length_append, hreslen]; omega) (le_refl 42),
        List.take_append_of_le_length (by omega),
        splice_take _ _ _ _ (by omega) (le_refl 42),
        List.take_append_of_le_length (by omega), List.take_take]
      norm_num
    have houtwin : ((splice ((splice (v.take 46 ++
        removeChunks n (v.drop 46) txHash) 42 (encBE 4 (n - 1))) ++ txHash)
        42 (encBE 4 n)).drop 42).take 4 = (v.drop 42).take 4 := by
      have hx := splice_extract ((splice (v.take 46 ++
        removeChunks n (v.drop 46) txHash) 42 (encBE 4 (n - 1))) ++ txHash)
        42 (encBE 4 n) (by rw [List.length_append, hreslen]; omega)
      rw [encBE_length] at hx
      have hER := encBE_readBE ((v.drop 42).take 4) (fun x hx2 =>
        hbytes x (List.drop_subset _ _ (List.take_subset _ _ hx2)))
      rw [hlen4] at hER
      rw [hx, ← hfield]
      exact hER
    calc (splice ((splice (v.take 46 ++ removeChunks n (v.drop 46) txHash)
          42 (encBE 4 (n - 1))) ++ txHash) 42 (encBE 4 n)).take 46
        = (splice ((splice (v.take 46 ++ removeChunks n (v.drop 46) txHash)
            42 (encBE 4 (n - 1))) ++ txHash) 42 (encBE 4 n)).take 42
          ++ ((splice ((splice (v.take 46 ++ removeChunks n (v.drop 46)
            txHash) 42 (encBE 4 (n - 1))) ++ txHash) 42
            (encBE 4 n)).drop 42).take 4 := hsplit _
      _ = v.take 42 ++ (v.drop 42).take 4 := by rw [hout42, houtwin]
      _ = v.take 46 := (hsplit v).symm
  · have houtdrop : (splice ((splice (v.take 46 ++
        removeChunks n (v.drop 46) txHash) 42 (encBE 4 (n - 1))) ++ txHash)
        42 (encBE 4 n)).drop 46
        = removeChunks n (v.drop 46) txHash ++ txHash := by
      rw [splice_drop _ _ _ _
          (by rw [encBE_length, List.length_append, hreslen]; omega)
          (by rw [encBE_length]),
        List.drop_append_of_le_length (by omega), hresdrop46]
    rw [houtdrop, hkept]
    have hx := chunks32_flatten_append
      ((chunks32 n (v.drop 46)).filter (fun c => c != txHash)) txHash
      (fun c hc => hchmem c (List.mem_of_mem_filter hc)) hh
    rw [show ((chunks32 n (v.drop 46)).filter
        (fun c => c != txHash)).length + 1 = n by rw [hflen]; omega] at hx
    rw [hx]
    rw [hfneg] at hperm0
    exact hperm0

set_option maxRecDepth 8000 in
/-- Witness for C5: a block record with a single trailing hash. -/
theorem claimC5_witness :
    ∃ res out,
      removeRawBlockRecord
        (List.replicate 42 0 ++ [0, 0, 0, 1] ++ List.replicate 32 7)
        (List.replicate 32 7) = some (.ok res) ∧
      appendRawBlockRecord res (List.replicate 32 7) = .ok out ∧
      out.length = (List.replicate 42 0 ++ [0, 0, 0, 1]
        ++ List.replicate 32 7 : Bytes).length ∧
      out.take 46 = (List.replicate 42 0 ++ [0, 0, 0, 1]
        ++ List.replicate 32 7 : Bytes).take 46 ∧
      (chunks32 1 (out.drop 46)).Perm
        (chunks32 1 ((List.replicate 42 0 ++ [0, 0, 0, 1]
          ++ List.replicate 32 7 : Bytes).drop 46)) :=
  claimC5_remove_append_round_trip
    (List.replicate 42 0 ++ [0, 0, 0, 1] ++ List.replicate 32 7)
    (List.replicate 32 7) 1 (by decide) (by decide) (by decide) (by decide)
    (by decide)

/-! ## Claim C1 — the mined-balance invariant -/

/-- The script-locator writes at offsets 82/86/90 leave byte 8 of a
94-byte buffer unchanged. -/
theorem credit94_getD (v2 : Bytes) (a b c : Nat) (h2 : v2.length = 94) :
    (splice (splice (splice v2 82 (encBE 4 a)) 86 (encBE 4 b)) 90
      (encBE 4 c)).getD 8 0 = v2.getD 8 0 := by
  have hC : (splice v2 82 (encBE 4 a)).length = 94 := by
    rw [splice_length _ _ _ (by rw [encBE_length, h2]; omega)]
    exact h2
  have hD : (splice (splice v2 82 (encBE 4 a)) 86 (encBE 4 b)).length
      = 94 := by
    rw [splice_length _ _ _ (by rw [encBE_length, hC]; omega)]
    exact hC
  rw [splice_getD_lt _ _ _ _ _ (by rw [encBE_length, hD]) (by omega),
    splice_getD_lt _ _ _ _ _ (by rw [encBE_length, hC]; omega) (by omega),
    splice_getD_lt _ _ _ _ _ (by rw [encBE_length, h2]; omega) (by omega)]

/-- The script-locator writes at offsets 82/86/90 leave the first 8
bytes of a 94-byte buffer unchanged. -/
theorem credit94_take (v2 : Bytes) (a b c : Nat) (h2 : v2.length = 94) :
    (splice (splice (splice v2 82 (encBE 4 a)) 86 (encBE 4 b)) 90
      (encBE 4 c)).take 8 = v2.take 8 := by
  have hC : (splice v2 82 (encBE 4 a)).length = 94 := by
    rw [splice_length _ _ _ (by rw [encBE_length, h2]; omega)]
    exact h2
  have hD : (splice (splice v2 82 (encBE 4 a)) 86 (encBE 4 b)).length
      = 94 := by
    rw [splice_length _ _ _ (by rw [encBE_length, hC]; omega)]
    exact hC
  rw [splice_take _ _ _ _ (by omega) (by omega),
    splice_take _ _ _ _ (by omega) (by omega),
    splice_take _ _ _ _ (by omega) (by omega)]

/-- The 94-byte value built by `valueUnspentCredit` has its spent bit
clear and stores the amount in its first 8 bytes. -/
theorem valueUnspentCredit_props (amount : Nat) (change isCoinbase : Bool)
    (opCode scrType scrLoc scrLen account : Nat) (ham : amount < 2 ^ 64) :
    (valueUnspentCredit amount change isCoinbase opCode scrType scrLoc
      scrLen account).getD 8 0 &&& 1 = 0 ∧
    readBE ((valueUnspentCredit amount change isCoinbase opCode scrType
      scrLoc scrLen account).take 8) = amount := by
  have h64 : (256 : Nat) ^ 8 = 2 ^ 64 := by norm_num
  have hfl : ∀ f0 : Nat, f0 &&& 1 = 0 →
      ((if change then f0 ||| 2 else f0) &&& 1) = 0 := by
    intro f0 h0
    cases change
    · simpa using h0
    · rw [if_pos rfl, and_one_or, h0]
      rfl
  have hfc : ∀ f1 : Nat, f1 &&& 1 = 0 →
      ((if isCoinbase then f1 ||| 32 else f1) &&& 1) = 0 := by
    intro f1 h1
    cases isCoinbase
    · simpa using h1
    · rw [if_pos rfl, and_one_or, h1]
      rfl
  have hL0 : (splice (List.replicate 94 0) 0 (encBE 8 amount)).length
      = 94 := by
    rw [splice_length _ _ _ (by simp [encBE_length])]
    simp
  unfold valueUnspentCredit putUint64At putUint32At
  constructor
  · rw [credit94_getD _ _ _ _ (by simp only [List.length_set]; rw [hL0]),
      getD_set_ne' _ _ _ _ _ (by omega),
      getD_set_self' _ _ _ _ (by rw [hL0]; omega)]
    exact hfc _ (hfl _ (condenseOpCode_and_one opCode))
  · rw [credit94_take _ _ _ _ (by simp only [List.length_set]; rw [hL0]),
      take_set_ge _ _ _ _ (by omega), take_set_ge _ _ _ _ (by omega)]
    have hx := splice_extract (List.replicate 94 0) 0 (encBE 8 amount)
      (by omega)
    rw [List.drop_zero, encBE_length] at hx
    rw [hx, readBE_encBE, h64, Nat.mod_eq_of_lt ham]

/-- The value built by `valueUnspentCredit` contributes its amount to the
unspent sum. -/
theorem valueUnspentCredit_amt (amount : Nat) (change isCoinbase : Bool)
    (opCode scrType scrLoc scrLen account : Nat) (ham : amount < 2 ^ 64) :
    creditUnspentAmt (valueUnspentCredit amount change isCoinbase opCode
      scrType scrLoc scrLen account) = amount := by
  obtain ⟨h0, h8⟩ := valueUnspentCredit_props amount change isCoinbase opCode
    scrType scrLoc scrLen account ham
  unfold creditUnspentAmt
  rw [if_pos h0, h8]

/-- One credit-lifecycle mutation preserves the balance identity. -/
theorem applyOp_preserves (s s' : StoreState) (op : TxOp)
    (hinv : s.bal = sumUnspent s.credits) (h : applyOp s op = some s') :
    s'.bal = sumUnspent s'.credits := by
  cases op with
  | putNew k amount change isCoinbase opCode scrType scrLoc scrLen account =>
    simp only [applyOp] at h
    split at h
    · rename_i hc
      obtain ⟨hnone, ham⟩ := hc
      simp only [Option.some.injEq] at h
      subst h
      simp only
      rw [sumUnspent_bPut_new _ _ _ hnone,
        valueUnspentCredit_amt _ _ _ _ _ _ _ _ ham, hinv]
    · cases h
  | spend k spender =>
    simp only [applyOp] at h
    split at h
    · cases h
    · rename_i v hget
      split at h
      · rename_i hc
        obtain ⟨hl94, hunspent⟩ := hc
        obtain ⟨nv, heq, hnvlen, hnvtake, hnvgetD⟩ :=
          spendCredit_result s.credits k v spender hget hl94
        rw [heq] at h
        simp only [Option.some.injEq] at h
        subst h
        simp only
        have hamtv : creditUnspentAmt v = readBE (v.take 8) := by
          unfold creditUnspentAmt
          rw [if_pos hunspent]
        have hamtnv : creditUnspentAmt nv = 0 := by
          unfold creditUnspentAmt
          rw [hnvgetD, if_neg (by rw [or_one_and_one]; omega)]
        have hsum := sumUnspent_bPut s.credits k v nv hget
        rw [hamtv, hamtnv] at hsum
        omega
      · cases h
  | unspend k =>
    simp only [applyOp] at h
    split at h
    · cases h
    · rename_i v hget
      split at h
      · rename_i hc
        obtain ⟨hl94, hspent⟩ := hc
        rw [unspendRawCredit_result s.credits k v hget hl94] at h
        simp only [Option.some.injEq] at h
        subst h
        simp only
        have hamtv : creditUnspentAmt v = 0 := by
          unfold creditUnspentAmt
          rw [if_neg (by omega)]
        have hamtnv : creditUnspentAmt (v.set 8 ((v.getD 8 0) &&& 254))
            = readBE (v.take 8) := by
          unfold creditUnspentAmt
          rw [getD_set_self' _ _ _ _ (by omega),
            take_set_ge _ _ _ _ (by omega), if_pos (and_254_and_one _)]
        have hsum := sumUnspent_bPut s.credits k v
          (v.set 8 ((v.getD 8 0) &&& 254)) hget
        rw [hamtv, hamtnv] at hsum
        omega
      · cases h
  | del k =>
    simp only [applyOp] at h
    split at h
    · cases h
    · rename_i v hget
      simp only [Option.some.injEq] at h
      subst h
      simp only
      have hsum := sumUnspent_bDel s.credits k v hget
      omega

/-- A whole transaction body preserves the balance identity. -/
theorem runOps_preserves (ops : List TxOp) :
    ∀ s s' : StoreState, s.bal = sumUnspent s.credits →
      runOps s ops = some s' → s'.bal = sumUnspent s'.credits := by
  induction ops with
  | nil =>
    intro s s' hinv h
    simp only [runOps, Option.some.injEq] at h
    subst h
    exact hinv
  | cons op rest ih =>
    intro s s' hinv h
    simp only [runOps] at h
    cases happ : applyOp s op with
    | none =>
      rw [happ] at h
      cases h
    | some s1 =>
      rw [happ] at h
      exact ih s1 s' (applyOp_preserves s s1 op hinv happ) h

/-- Claim C1: starting from the fresh store (`bal = 0`, empty credits
bucket — the state `createStore` leaves), every successfully committed
sequence of credit-lifecycle mutations leaves `bal` equal to the sum of
the amounts of all credits in the `c` bucket whose spent flag bit is
unset. -/
theorem claimC1_balance_invariant (ops : List TxOp) (s' : StoreState)
    (h : runOps ⟨[], 0⟩ ops = some s') :
    s'.bal = sumUnspent s'.credits :=
  runOps_preserves ops ⟨[], 0⟩ s' rfl h

set_option maxRecDepth 16000 in
/-- Witness for C1: insert a credit of 500, spend it, unspend it and
delete it; the run succeeds and ends in the empty store, whose balance 0
matches the empty unspent sum. -/
theorem claimC1_witness :
    (⟨[], 0⟩ : StoreState).bal
      = sumUnspent (⟨[], 0⟩ : StoreState).credits :=
  claimC1_balance_invariant
    [TxOp.putNew [1] 500 false false 185 2 0 0 0,
     TxOp.spend [1] ⟨List.replicate 32 3, 7, List.replicate 32 4, 0⟩,
     TxOp.unspend [1],
     TxOp.del [1]]
    ⟨[], 0⟩ (by decide)

/-! ## Lexicographic order lemmas (for the cursor scan) -/

theorem lexLt_irrefl (a : Bytes) : lexLt a a = false := by
  induction a with
  | nil => rfl
  | cons x xs ih =>
    simp only [lexLt, if_neg (lt_irrefl x)]
    exact ih

theorem lexLt_trans (a : Bytes) :
    ∀ b c : Bytes, lexLt a b = true → lexLt b c = true → lexLt a c = true := by
  induction a with
  | nil =>
    intro b c hab hbc
    cases b with
    | nil => exact hbc
    | cons y ys =>
      cases c with
      | nil => simp [lexLt] at hbc
      | cons z zs => rfl
  | cons x xs ih =>
    intro b c hab hbc
    cases b with
    | nil => simp [lexLt] at hab
    | cons y ys =>
      cases c with
      | nil => simp [lexLt] at hbc
      | cons z zs =>
        simp only [lexLt] at hab hbc ⊢
        by_cases hxy : x < y
        · by_cases hyz : y < z
          · rw [if_pos (by omega)]
          · rw [if_neg hyz] at hbc
            by_cases hzy : z < y
            · rw [if_pos hzy] at hbc
              cases hbc
            · rw [if_pos (by omega)]
        · rw [if_neg hxy] at hab
          by_cases hyx : y < x
          · rw [if_pos hyx] at hab
            cases hab
          · rw [if_neg hyx] at hab
            by_cases hyz : y < z
            · rw [if_pos (by omega)]
            · rw [if_neg hyz] at hbc
              by_cases hzy : z < y
              · rw [if_pos hzy] at hbc
                cases hbc
              · rw [if_neg hzy] at hbc
                rw [if_neg (by omega), if_neg (by omega)]
                exact ih ys zs hab hbc

theorem lexLt_asymm (a b : Bytes) (h : lexLt a b = true) :
    lexLt b a = false := by
  by_contra hc
  have hba : lexLt b a = true := by
    cases hx : lexLt b a
    · exact absurd hx hc
    · rfl
  have := lexLt_trans a b a h hba
  rw [lexLt_irrefl] at this
  cases this

theorem lexLt_false_cases (a : Bytes) :
    ∀ b : Bytes, lexLt a b = false → a = b ∨ lexLt b a = true := by
  induction a with
  | nil =>
    intro b hab
    cases b with
    | nil => exact Or.inl rfl
    | cons y ys => simp [lexLt] at hab
  | cons x xs ih =>
    intro b hab
    cases b with
    | nil => exact Or.inr rfl
    | cons y ys =>
      simp only [lexLt] at hab ⊢
      by_cases hxy : x < y
      · rw [if_pos hxy] at hab
        cases hab
      · rw [if_neg hxy] at hab
        by_cases hyx : y < x
        · exact Or.inr (by rw [if_pos hyx])
        · rw [if_neg hyx] at hab
          have hxey : x = y := by omega
          rcases ih ys hab with h | h
          · exact Or.inl (by rw [hxey, h])
          · refine Or.inr ?_
            rw [if_neg (by omega), if_neg (by omega)]
            exact h

theorem lexLt_of_isPrefixOf (p : Bytes) :
    ∀ k : Bytes, p.isPrefixOf k = true → lexLt k p = false := by
  induction p with
  | nil =>
    intro k _
    cases k with
    | nil => rfl
    | cons y ys => rfl
  | cons a p' ih =>
    intro k hp
    cases k with
    | nil => simp [List.isPrefixOf] at hp
    | cons b k' =>
      simp only [List.isPrefixOf, Bool.and_eq_true, beq_iff_eq] at hp
      obtain ⟨hab, hp'⟩ := hp
      subst hab
      simp only [lexLt, if_neg (lt_irrefl a)]
      exact ih k' hp'

theorem isPrefixOf_sandwich (p : Bytes) :
    ∀ k1 k2 : Bytes, lexLt k1 k2 = true → lexLt k1 p = false →
      p.isPrefixOf k2 = true → p.isPrefixOf k1 = true := by
  induction p with
  | nil =>
    intro k1 k2 _ _ _
    cases k1 with
    | nil => rfl
    | cons b k1' => rfl
  | cons a p' ih =>
    intro k1 k2 h12 hle hp2
    cases k1 with
    | nil => simp [lexLt] at hle
    | cons b k1' =>
      cases k2 with
      | nil => simp [lexLt] at h12
      | cons c k2' =>
        simp only [List.isPrefixOf, Bool.and_eq_true, beq_iff_eq] at hp2 ⊢
        obtain ⟨hac, hp2'⟩ := hp2
        subst hac
        simp only [lexLt] at h12 hle
        by_cases hbc : b < a
        · rw [if_pos hbc] at hle
          cases hle
        · rw [if_neg hbc] at hle h12
          by_cases hab : a < b
          · rw [if_pos hab] at h12
            cases h12
          · rw [if_neg hab] at h12 hle
            have hae : b = a := by omega
            subst hae
            exact ⟨rfl, ih k1' k2' h12 hle hp2'⟩

theorem lexLt_append_same (p : Bytes) :
    ∀ s t : Bytes, lexLt (p ++ s) (p ++ t) = lexLt s t := by
  induction p with
  | nil => intro s t; rfl
  | cons a p' ih =>
    intro s t
    simp only [List.cons_append, lexLt, if_neg (lt_irrefl a)]
    exact ih s t

theorem lexLt_append_split (a : Bytes) :
    ∀ b s t : Bytes, a.length = b.length →
      lexLt (a ++ s) (b ++ t) = true → lexLt a b = true ∨ a = b := by
  induction a with
  | nil =>
    intro b s t hab _
    cases b with
    | nil => exact Or.inr rfl
    | cons y ys => simp at hab
  | cons x xs ih =>
    intro b s t hab h
    cases b with
    | nil => simp at hab
    | cons y ys =>
      simp only [List.length_cons] at hab
      simp only [List.cons_append, lexLt] at h ⊢
      by_cases hxy : x < y
      · exact Or.inl (by rw [if_pos hxy])
      · rw [if_neg hxy] at h
        by_cases hyx : y < x
        · rw [if_pos hyx] at h
          cases h
        · rw [if_neg hyx] at h
          rw [if_neg hxy, if_neg hyx]
          rcases ih ys s t (by omega) h with h2 | h2
          · exact Or.inl h2
          · exact Or.inr (by rw [show x = y by omega, h2])

theorem readBE_lt_of_lexLt (a : Bytes) :
    ∀ b : Bytes, a.length = b.length → (∀ x ∈ a, x < 256) →
      lexLt a b = true → readBE a < readBE b := by
  induction a with
  | nil =>
    intro b hab _ h
    cases b with
    | nil => cases h
    | cons y ys => simp at hab
  | cons x xs ih =>
    intro b hab hbytes h
    cases b with
    | nil => simp at hab
    | cons y ys =>
      simp only [List.length_cons] at hab
      have hlen : xs.length = ys.length := by omega
      simp only [lexLt] at h
      simp only [readBE, hlen]
      have hxslt : readBE xs < 256 ^ xs.length :=
        readBE_lt xs (fun z hz => hbytes z (List.mem_cons_of_mem _ hz))
      by_cases hxy : x < y
      · have hpow : 256 ^ xs.length = 256 ^ ys.length := by rw [hlen]
        calc x * 256 ^ ys.length + readBE xs
            < x * 256 ^ ys.length + 256 ^ ys.length := by
              rw [← hpow]
              omega
          _ = (x + 1) * 256 ^ ys.length := by ring
          _ ≤ y * 256 ^ ys.length := Nat.mul_le_mul_right _ (by omega)
          _ ≤ y * 256 ^ ys.length + readBE ys := by omega
      · rw [if_neg hxy] at h
        by_cases hyx : y < x
        · rw [if_pos hyx] at h
          cases h
        · rw [if_neg hyx] at h
          have hxe : x = y := by omega
          subst hxe
          have := ih ys hlen
            (fun z hz => hbytes z (List.mem_cons_of_mem _ hz)) h
          omega

/-! ## The cursor scan of `latestTxRecord`, solved on sorted buckets -/

theorem dropWhile_first_false (p : Bytes × Bytes → Bool) (l : Bucket) :
    ∀ h0 tl, l.dropWhile p = h0 :: tl → p h0 = false := by
  induction l with
  | nil => intro h0 tl h; cases h
  | cons a l ih =>
    intro h0 tl h
    rw [List.dropWhile_cons] at h
    by_cases hp : p a = true
    · rw [if_pos hp] at h
      exact ih h0 tl h
    · rw [if_neg hp] at h
      injection h with h1 _
      subst h1
      exact Bool.eq_false_iff.mpr hp

theorem dropWhile_all_ge (pfx : Bytes) (bucket : Bucket)
    (hsorted : bucket.Pairwise (fun x y => lexLt x.1 y.1 = true)) :
    ∀ x ∈ bucket.dropWhile (fun kv => lexLt kv.1 pfx),
      lexLt x.1 pfx = false := by
  have hpw : (bucket.dropWhile (fun kv => lexLt kv.1 pfx)).Pairwise
      (fun x y => lexLt x.1 y.1 = true) :=
    hsorted.sublist (List.dropWhile_sublist _)
  cases hd : bucket.dropWhile (fun kv => lexLt kv.1 pfx) with
  | nil =>
    intro x hx
    cases hx
  | cons h0 tl =>
    intro x hx
    rw [hd] at hpw
    have hh0 : lexLt h0.1 pfx = false :=
      dropWhile_first_false _ bucket h0 tl hd
    rcases List.mem_cons.mp hx with rfl | hx'
    · exact hh0
    · have hrel := List.rel_of_pairwise_cons hpw hx'
      cases hxl : lexLt x.1 pfx
      · rfl
      · have hcon := lexLt_trans h0.1 x.1 pfx hrel hxl
        rw [hcon] at hh0
        cases hh0

theorem takeWhile_eq_filter_of_sorted (pfx : Bytes) (l : Bucket)
    (hpw : l.Pairwise (fun x y => lexLt x.1 y.1 = true))
    (hge : ∀ x ∈ l, lexLt x.1 pfx = false) :
    l.takeWhile (fun kv => pfx.isPrefixOf kv.1)
      = l.filter (fun kv => pfx.isPrefixOf kv.1) := by
  induction l with
  | nil => rfl
  | cons hd tl ih =>
    by_cases hm : pfx.isPrefixOf hd.1 = true
    · rw [List.takeWhile_cons, List.filter_cons, if_pos hm, if_pos hm]
      rw [ih hpw.of_cons (fun x hx => hge x (List.mem_cons_of_mem _ hx))]
    · rw [List.takeWhile_cons, List.filter_cons, if_neg hm, if_neg hm]
      symm
      rw [List.filter_eq_nil_iff]
      intro x hx hmx
      have hrel := List.rel_of_pairwise_cons hpw hx
      have hhd := hge hd (List.mem_cons_self _ _)
      exact hm (isPrefixOf_sandwich pfx hd.1 x.1 hrel hhd hmx)

theorem getLast?_greatest (R : Bytes × Bytes → Bytes × Bytes → Prop)
    (a : Bytes × Bytes) (l : Bucket) :
    l.Pairwise R → l.getLast? = some a → ∀ x ∈ l, x = a ∨ R x a := by
  induction l with
  | nil => intro _ h; cases h
  | cons hd tl ih =>
    intro hpw h x hx
    cases tl with
    | nil =>
      rw [List.getLast?_singleton] at h
      injection h with h1
      subst h1
      rcases List.mem_cons.mp hx with rfl | hx'
      · exact Or.inl rfl
      · cases hx'
    | cons b tl' =>
      rw [List.getLast?_cons_cons] at h
      rcases List.mem_cons.mp hx with rfl | hx'
      · have ha : a ∈ b :: tl' := List.mem_of_mem_getLast? h
        exact Or.inr (List.rel_of_pairwise_cons hpw ha)
      · exact ih hpw.of_cons h x hx'

theorem latestTxRecord_eq_filter (bucket : Bucket) (txHash : Bytes)
    (hsorted : bucket.Pairwise (fun x y => lexLt x.1 y.1 = true)) :
    latestTxRecord bucket txHash
      = (bucket.filter (fun kv => txHash.isPrefixOf kv.1)).getLast? := by
  simp only [latestTxRecord]
  rw [takeWhile_eq_filter_of_sorted txHash _
    (hsorted.sublist (List.dropWhile_sublist _))
    (dropWhile_all_ge txHash bucket hsorted)]
  congr 1
  have hnil : (bucket.takeWhile (fun kv => lexLt kv.1 txHash)).filter
      (fun kv => txHash.isPrefixOf kv.1) = [] := by
    rw [List.filter_eq_nil_iff]
    intro x hx hmx
    have hpred0 := List.mem_takeWhile_imp hx
    have hpred : lexLt x.1 txHash = true := hpred0
    rw [lexLt_of_isPrefixOf txHash x.1 hmx] at hpred
    cases hpred
  conv_rhs => rw [← List.takeWhile_append_dropWhile
    (fun kv => lexLt kv.1 txHash) bucket]
  rw [List.filter_append, hnil, List.nil_append]

/-- Among two 68-byte keys sharing a 32-byte hash prefix, the cursor
order bounds the big-endian height at bytes 32..36. -/
theorem height_le_of_max (pfx k' k : Bytes) (hpfx : pfx.length = 32)
    (hk : k.length = 68) (hk' : k'.length = 68)
    (hb' : ∀ x ∈ k', x < 256)
    (hpk : pfx.isPrefixOf k = true) (hpk' : pfx.isPrefixOf k' = true)
    (hmax : lexLt k k' = false) :
    readBE ((k'.drop 32).take 4) ≤ readBE ((k.drop 32).take 4) := by
  obtain ⟨s, hs⟩ := List.isPrefixOf_iff_prefix.mp hpk
  obtain ⟨t, ht⟩ := List.isPrefixOf_iff_prefix.mp hpk'
  subst hs
  subst ht
  rw [List.drop_left' hpfx, List.drop_left' hpfx]
  have hsl : s.length = 36 := by
    rw [List.length_append, hpfx] at hk
    omega
  have htl : t.length = 36 := by
    rw [List.length_append, hpfx] at hk'
    omega
  rcases lexLt_false_cases _ _ hmax with heq | hlt
  · have : s = t := List.append_cancel_left heq
    rw [this]
  · rw [lexLt_append_same] at hlt
    have h4t : (t.take 4).length = 4 := by
      simp only [List.length_take]
      omega
    have h4s : (s.take 4).length = 4 := by
      simp only [List.length_take]
      omega
    have hsplit := lexLt_append_split (t.take 4) (s.take 4) (t.drop 4)
      (s.drop 4) (by rw [h4t, h4s])
      (by rw [List.take_append_drop, List.take_append_drop]; exact hlt)
    rcases hsplit with hlt4 | heq4
    · have hlt' := readBE_lt_of_lexLt (t.take 4) (s.take 4)
        (by rw [h4t, h4s])
        (fun x hx => hb' x
          (List.mem_append.mpr (Or.inr (List.take_subset _ _ hx))))
        hlt4
      omega
    · rw [heq4]

/-- Claim C8: in a sorted bucket of 68-byte mined-tx keys,
`latestTxRecord` returns `(nil, nil)` exactly when no key extends the
32-byte hash, and otherwise returns a matching entry that is
lexicographically greatest among all matches — which, heights being
big-endian at bytes 32..36, is the incarnation in the tallest block. -/
theorem claimC8_latestTxRecord (bucket : Bucket) (txHash : Bytes)
    (hsorted : bucket.Pairwise (fun x y => lexLt x.1 y.1 = true))
    (hkeys : ∀ kv ∈ bucket, kv.1.length = 68 ∧ ∀ x ∈ kv.1, x < 256)
    (hpfx : txHash.length = 32) :
    (latestTxRecord bucket txHash = none ↔
      ∀ kv ∈ bucket, txHash.isPrefixOf kv.1 = false) ∧
    (∀ kv, latestTxRecord bucket txHash = some kv →
      kv ∈ bucket ∧ txHash.isPrefixOf kv.1 = true ∧
      ∀ kv' ∈ bucket, txHash.isPrefixOf kv'.1 = true →
        lexLt kv.1 kv'.1 = false ∧
        readBE ((kv'.1.drop 32).take 4)
          ≤ readBE ((kv.1.drop 32).take 4)) := by
  rw [latestTxRecord_eq_filter bucket txHash hsorted]
  constructor
  · rw [List.getLast?_eq_none_iff, List.filter_eq_nil_iff]
    constructor
    · intro h kv hkv
      cases hx : txHash.isPrefixOf kv.1
      · rfl
      · exact absurd hx (h kv hkv)
    · intro h kv hkv hmx
      rw [h kv hkv] at hmx
      cases hmx
  · intro kv h
    have hmem : kv ∈ bucket.filter (fun kv => txHash.isPrefixOf kv.1) :=
      List.mem_of_mem_getLast? h
    have hkvb : kv ∈ bucket := List.mem_of_mem_filter hmem
    have hkvm : txHash.isPrefixOf kv.1 = true := (List.mem_filter.mp hmem).2
    refine ⟨hkvb, hkvm, ?_⟩
    intro kv' hkv' hm'
    have hmem' : kv' ∈ bucket.filter (fun kv => txHash.isPrefixOf kv.1) :=
      List.mem_filter.mpr ⟨hkv', hm'⟩
    have hpwf : (bucket.filter (fun kv => txHash.isPrefixOf kv.1)).Pairwise
        (fun x y => lexLt x.1 y.1 = true) :=
      hsorted.sublist (List.filter_sublist _)
    have hglast := getLast?_greatest _ kv _ hpwf h kv' hmem'
    have hmax : lexLt kv.1 kv'.1 = false := by
      rcases hglast with rfl | hlt
      · exact lexLt_irrefl _
      · exact lexLt_asymm _ _ hlt
    obtain ⟨hkl, _⟩ := hkeys kv hkvb
    obtain ⟨hkl', hkb'⟩ := hkeys kv' hkv'
    exact ⟨hmax,
      height_le_of_max txHash kv'.1 kv.1 hpfx hkl hkl' hkb' hkvm hm' hmax⟩

set_option maxRecDepth 8000 in
/-- Witness for C8: the same 32-byte hash mined at heights 100 and 120
plus an unrelated key; the scan finds the height-120 incarnation. -/
theorem claimC8_witness :
    (latestTxRecord
        [(List.replicate 32 1 ++ encBE 4 100 ++ List.replicate 32 2, [1]),
         (List.replicate 32 1 ++ encBE 4 120 ++ List.replicate 32 3, [2]),
         (List.replicate 68 9, [3])] (List.replicate 32 1) = none ↔
      ∀ kv ∈ [(List.replicate 32 1 ++ encBE 4 100 ++ List.replicate 32 2,
            ([1] : Bytes)),
          (List.replicate 32 1 ++ encBE 4 120 ++ List.replicate 32 3, [2]),
          (List.replicate 68 9, [3])],
        (List.replicate 32 1).isPrefixOf kv.1 = false) ∧
    (∀ kv, latestTxRecord
        [(List.replicate 32 1 ++ encBE 4 100 ++ List.replicate 32 2, [1]),
         (List.replicate 32 1 ++ encBE 4 120 ++ List.replicate 32 3, [2]),
         (List.replicate 68 9, [3])] (List.replicate 32 1) = some kv →
      kv ∈ [(List.replicate 32 1 ++ encBE 4 100 ++ List.replicate 32 2,
          ([1] : Bytes)),
        (List.replicate 32 1 ++ encBE 4 120 ++ List.replicate 32 3, [2]),
        (List.replicate 68 9, [3])] ∧
      (List.replicate 32 1).isPrefixOf kv.1 = true ∧
      ∀ kv' ∈ [(List.replicate 32 1 ++ encBE 4 100 ++ List.replicate 32 2,
            ([1] : Bytes)),
          (List.replicate 32 1 ++ encBE 4 120 ++ List.replicate 32 3, [2]),
          (List.replicate 68 9, [3])],
        (List.replicate 32 1).isPrefixOf kv'.1 = true →
        lexLt kv.1 kv'.1 = false ∧
        readBE ((kv'.1.drop 32).take 4)
          ≤ readBE ((kv.1.drop 32).take 4)) :=
  claimC8_latestTxRecord
    [(List.replicate 32 1 ++ encBE 4 100 ++ List.replicate 32 2, [1]),
     (List.replicate 32 1 ++ encBE 4 120 ++ List.replicate 32 3, [2]),
     (List.replicate 68 9, [3])] (List.replicate 32 1)
    (by decide) (by decide) (by decide)

end Wtxmgr
